import Mathlib

/-!
Verification development for the PharmaPulse exam-preparation backend.

The definitions below are a shallow embedding of the Python source under
`app/`.  Database tables become lists of records, SQLAlchemy queries become
list operations (`find?`, `filter`, `countP`), in-place ORM mutation of the
first row matched by a query becomes `updateFirst`, `datetime.utcnow()`
becomes an explicit `now : Nat` parameter, and `HTTPException` becomes an
`ApiError` value in `Except`.  `ORDER BY random() LIMIT n` is modelled as
taking a prefix of the filtered table: the ambient list order of the table
plays the role of the random permutation, and theorems quantify over that
order.  Python `float` scores are modelled with `ℚ`; at every value that
actually arises in the scoring code (integers and quarter-multiples, weights
in hundredths) the float computations of the source are exact, so the
rational model coincides with the Python semantics.
-/

namespace PharmaPulse

/-! ## Enums (app/models.py) -/

inductive CorrectOptionEnum where
  | A | B | C | D
  deriving DecidableEq, Repr

inductive CategoryEnum where
  | technical | current_affairs | case_law
  deriving DecidableEq, Repr

inductive FlashcardStatus where
  | pending | correct
  deriving DecidableEq, Repr

/-! ## Records (app/models.py) -/

structure Question where
  id : Nat
  question_text : String
  option_a : String
  option_b : String
  option_c : String
  option_d : String
  correct_option : CorrectOptionEnum
  explanation : String
  chapter : String
  category : CategoryEnum
  difficulty : Int
  deriving DecidableEq, Repr

structure UserQuestionProgress where
  user_id : Nat
  question_id : Nat
  attempts : Nat
  first_try_correct : Bool
  last_attempted : Nat
  deriving DecidableEq, Repr

/-- Errors raised as `HTTPException` in the source. -/
inductive ApiError where
  | notFound (msg : String)
  | badRequest (msg : String)
  deriving DecidableEq, Repr

instance {ε α : Type} [DecidableEq ε] [DecidableEq α] : DecidableEq (Except ε α) :=
  fun x y =>
    match x, y with
    | .error a, .error b => decidable_of_iff (a = b) (by simp)
    | .ok a, .ok b => decidable_of_iff (a = b) (by simp)
    | .error _, .ok _ => .isFalse (by simp)
    | .ok _, .error _ => .isFalse (by simp)

/-- Mutating the first row matched by a query, as the ORM does when code
fetches `query(...).first()` and assigns to its attributes. -/
def updateFirst (p : α → Bool) (f : α → α) : List α → List α
  | [] => []
  | x :: xs => if p x then f x :: xs else x :: updateFirst p f xs

/-! ## Mastery tracker (app/services/progress_service.py) -/

/-- The per-call update applied to a (fetched or freshly created) progress
row by `ProgressService.record_answer`: increment `attempts`, stamp
`last_attempted`, and set `first_try_correct` when the incremented attempt
count is exactly 1 and the answer is correct. -/
def stepProgress (is_correct : Bool) (now : Nat) (p : UserQuestionProgress) :
    UserQuestionProgress :=
  let p := { p with attempts := p.attempts + 1, last_attempted := now }
  if p.attempts == 1 && is_correct then { p with first_try_correct := true } else p

/-- Key predicate used by `record_answer`'s fetch. -/
def progressKey (user_id question_id : Nat) (p : UserQuestionProgress) : Bool :=
  p.user_id == user_id && p.question_id == question_id

/-- `ProgressService.record_answer`: fetch-or-create the (user, question)
row, then apply `stepProgress` to it. -/
def record_answer (rows : List UserQuestionProgress) (user_id question_id : Nat)
    (is_correct : Bool) (now : Nat) : List UserQuestionProgress :=
  match rows.find? (progressKey user_id question_id) with
  | some _ =>
      updateFirst (progressKey user_id question_id) (stepProgress is_correct now) rows
  | none =>
      rows ++ [stepProgress is_correct now
        { user_id := user_id, question_id := question_id, attempts := 0,
          first_try_correct := false, last_attempted := now }]

/-- One `record_answer` call, as data. -/
structure ProgressCall where
  user_id : Nat
  question_id : Nat
  is_correct : Bool
  now : Nat
  deriving DecidableEq, Repr

def applyCalls (rows : List UserQuestionProgress) (calls : List ProgressCall) :
    List UserQuestionProgress :=
  calls.foldl (fun r c => record_answer r c.user_id c.question_id c.is_correct c.now) rows

/-- The `first_try_correct` flag of the (user, question) row, as the code
would read it back. -/
def ftcOf (rows : List UserQuestionProgress) (user_id question_id : Nat) : Option Bool :=
  (rows.find? (progressKey user_id question_id)).map (·.first_try_correct)

/-- The attempt count of the (user, question) row. -/
def attemptsOf (rows : List UserQuestionProgress) (user_id question_id : Nat) : Option Nat :=
  (rows.find? (progressKey user_id question_id)).map (·.attempts)

/-! ## Full-length test mode (app/test_service.py, app/models.py) -/

structure TestAttempt where
  id : Nat
  user_id : Nat
  total_questions : Nat
  correct_count : Nat
  wrong_count : Nat
  unanswered_count : Int
  score : ℚ
  negative_marks : ℚ
  final_score : ℚ
  completed : Bool
  completed_at : Option Nat
  deriving DecidableEq, Repr

structure TestQuestion where
  attempt_id : Nat
  question_id : Nat
  question_order : Nat
  deriving DecidableEq, Repr

structure TestAnswer where
  attempt_id : Nat
  question_id : Nat
  selected_option : CorrectOptionEnum
  is_correct : Bool
  answered_at : Nat
  deriving DecidableEq, Repr

structure TestDB where
  questions : List Question
  attempts : List TestAttempt
  test_questions : List TestQuestion
  test_answers : List TestAnswer
  deriving DecidableEq, Repr

def MARKS_PER_CORRECT : ℚ := 1
def NEGATIVE_MARK_PER_WRONG : ℚ := 1/4

/-- Python `round(x, 2)`.  Mathlib `round` is round-half-up while Python
uses round-half-to-even, but every score in this system is an integer
multiple of 1/4, so `x * 100` is an integer and both conventions return
`x` unchanged. -/
def round2 (x : ℚ) : ℚ := (round (x * 100) : ℚ) / 100

structure TestAnswerRequest where
  attempt_id : Nat
  question_id : Nat
  selected_option : CorrectOptionEnum
  deriving DecidableEq, Repr

structure TestAnswerResult where
  correct : Bool
  correct_option : CorrectOptionEnum
  explanation : String
  deriving DecidableEq, Repr

structure ChapterScore where
  chapter : String
  total : Nat
  correct : Nat
  wrong : Nat
  unanswered : Nat
  score : ℚ
  deriving DecidableEq, Repr

structure TestSubmitResponse where
  attempt_id : Nat
  total_questions : Nat
  correct_count : Nat
  wrong_count : Nat
  unanswered_count : Int
  score : ℚ
  negative_marks : ℚ
  final_score : ℚ
  chapter_breakdown : List ChapterScore
  deriving DecidableEq, Repr

def testAttemptKey (attempt_id user_id : Nat) (a : TestAttempt) : Bool :=
  a.id == attempt_id && a.user_id == user_id

def testAnswerKey (attempt_id question_id : Nat) (a : TestAnswer) : Bool :=
  a.attempt_id == attempt_id && a.question_id == question_id

/-- `answer_test_question`: ownership check, completion check, membership
check, correctness recomputed against the question's current correct
option, then upsert of the answer row. -/
def answer_test_question (db : TestDB) (user_id : Nat) (req : TestAnswerRequest)
    (now : Nat) : TestDB × Except ApiError TestAnswerResult :=
  match db.attempts.find? (testAttemptKey req.attempt_id user_id) with
  | none => (db, .error (.notFound "Test attempt not found"))
  | some attempt =>
    if attempt.completed then (db, .error (.badRequest "Test already submitted"))
    else
      match db.test_questions.find?
          (fun tq => tq.attempt_id == req.attempt_id && tq.question_id == req.question_id) with
      | none => (db, .error (.notFound "Question not in this test"))
      | some _ =>
        match db.questions.find? (fun q => q.id == req.question_id) with
        | none =>
            -- unreachable under foreign-key integrity; the Python dereferences
            -- the question row unconditionally here
            (db, .error (.notFound "Question row missing"))
        | some question =>
          let is_correct := req.selected_option == question.correct_option
          let answers' :=
            if (db.test_answers.find? (testAnswerKey req.attempt_id req.question_id)).isSome then
              updateFirst (testAnswerKey req.attempt_id req.question_id)
                (fun a => { a with selected_option := req.selected_option,
                                   is_correct := is_correct, answered_at := now })
                db.test_answers
            else
              db.test_answers ++
                [{ attempt_id := req.attempt_id, question_id := req.question_id,
                   selected_option := req.selected_option, is_correct := is_correct,
                   answered_at := now }]
          ({ db with test_answers := answers' },
           .ok { correct := is_correct, correct_option := question.correct_option,
                 explanation := question.explanation })

/-- The `answer_map` dict built in `submit_test`: keyed by question id,
later list entries overwrite earlier ones. -/
def answerMapGet (answers : List TestAnswer) (question_id : Nat) : Option TestAnswer :=
  (answers.filter (fun a => a.question_id == question_id)).getLast?

structure ChapterStat where
  total : Nat
  correct : Nat
  wrong : Nat
  unanswered : Nat
  deriving DecidableEq, Repr

def ChapterStat.zero : ChapterStat := ⟨0, 0, 0, 0⟩

/-- The chapter of a test question, through the `tq.question` relationship. -/
def chapterOf (bank : List Question) (tq : TestQuestion) : String :=
  ((bank.find? (fun q => q.id == tq.question_id)).map (·.chapter)).getD ""

/-- The per-question increment of the `chapter_stats` dict entry: one to
`total` and one to the bucket selected by the looked-up answer. -/
def statBump (answers : List TestAnswer) (tq : TestQuestion)
    (s : ChapterStat) : ChapterStat :=
  let s := { s with total := s.total + 1 }
  match answerMapGet answers tq.question_id with
  | none => { s with unanswered := s.unanswered + 1 }
  | some a => if a.is_correct then { s with correct := s.correct + 1 }
              else { s with wrong := s.wrong + 1 }

/-- One iteration of the `chapter_stats` loop body in `submit_test`. -/
def chapterStatsStep (bank : List Question) (answers : List TestAnswer)
    (stats : List (String × ChapterStat)) (tq : TestQuestion) :
    List (String × ChapterStat) :=
  let ch := chapterOf bank tq
  if (stats.find? (fun e => e.1 == ch)).isSome then
    updateFirst (fun e => e.1 == ch) (fun e => (e.1, statBump answers tq e.2)) stats
  else
    stats ++ [(ch, statBump answers tq ChapterStat.zero)]

def chapterStats (bank : List Question) (answers : List TestAnswer)
    (tqs : List TestQuestion) : List (String × ChapterStat) :=
  tqs.foldl (chapterStatsStep bank answers) []

/-- Reading one chapter's entry back out of the accumulated stats. -/
def lookupStats (stats : List (String × ChapterStat)) (ch : String) :
    Option ChapterStat :=
  (stats.find? (fun e => e.1 == ch)).map (·.2)

/-- The chapter-restricted tallies the breakdown is supposed to contain:
the four counters of `submit_test`'s loop, recomputed directly over the
attempt questions of one chapter. -/
def chCounts (bank : List Question) (answers : List TestAnswer)
    (tqs : List TestQuestion) (ch : String) : ChapterStat :=
  { total := tqs.countP (fun tq => chapterOf bank tq == ch),
    correct := tqs.countP (fun tq => chapterOf bank tq == ch
      && ((answerMapGet answers tq.question_id).map (·.is_correct) == some true)),
    wrong := tqs.countP (fun tq => chapterOf bank tq == ch
      && ((answerMapGet answers tq.question_id).map (·.is_correct) == some false)),
    unanswered := tqs.countP (fun tq => chapterOf bank tq == ch
      && (answerMapGet answers tq.question_id).isNone) }

/-- `submit_test`: aggregate scoring with negative marking and the
per-chapter breakdown, then the attempt is marked completed. -/
def submit_test (db : TestDB) (user_id attempt_id : Nat) (now : Nat) :
    TestDB × Except ApiError TestSubmitResponse :=
  match db.attempts.find? (testAttemptKey attempt_id user_id) with
  | none => (db, .error (.notFound "Test attempt not found"))
  | some attempt =>
    if attempt.completed then (db, .error (.badRequest "Test already submitted"))
    else
      let test_questions := db.test_questions.filter (fun tq => tq.attempt_id == attempt_id)
      let answers := db.test_answers.filter (fun a => a.attempt_id == attempt_id)
      -- `all_q_ids` is a Python set of the attempt's question ids
      let numQids := ((test_questions.map (·.question_id)).dedup).length
      let correct := answers.countP (·.is_correct)
      let wrong := answers.countP (fun a => !a.is_correct)
      let unanswered : Int := (numQids : Int) - (answers.length : Int)
      let score := (correct : ℚ) * MARKS_PER_CORRECT
      let neg := (wrong : ℚ) * NEGATIVE_MARK_PER_WRONG
      let final := score - neg
      let stats := chapterStats db.questions answers test_questions
      let chapter_breakdown := stats.map (fun e =>
        { chapter := e.1, total := e.2.total, correct := e.2.correct,
          wrong := e.2.wrong, unanswered := e.2.unanswered,
          score := round2 ((e.2.correct : ℚ) * MARKS_PER_CORRECT
                           - (e.2.wrong : ℚ) * NEGATIVE_MARK_PER_WRONG) : ChapterScore })
      let attempts' := updateFirst (testAttemptKey attempt_id user_id)
        (fun a => { a with correct_count := correct, wrong_count := wrong,
                           unanswered_count := unanswered,
                           score := round2 score, negative_marks := round2 neg,
                           final_score := round2 final,
                           completed := true, completed_at := some now })
        db.attempts
      ({ db with attempts := attempts' },
       .ok { attempt_id := attempt_id, total_questions := attempt.total_questions,
             correct_count := correct, wrong_count := wrong,
             unanswered_count := unanswered,
             score := round2 score, negative_marks := round2 neg,
             final_score := round2 final,
             chapter_breakdown := chapter_breakdown })

/-! ## Stable sorting helpers

Python's `sorted` and SQL `ORDER BY` are modelled by a stable insertion
sort on a `Nat` key. -/

def insertAsc (key : α → Nat) (x : α) : List α → List α
  | [] => [x]
  | y :: ys => if key y ≤ key x then y :: insertAsc key x ys else x :: y :: ys

def sortAsc (key : α → Nat) : List α → List α
  | [] => []
  | x :: xs => insertAsc key x (sortAsc key xs)

def insertDesc (key : α → Nat) (x : α) : List α → List α
  | [] => [x]
  | y :: ys => if key x < key y then y :: insertDesc key x ys else x :: y :: ys

def sortDesc (key : α → Nat) : List α → List α
  | [] => []
  | x :: xs => insertDesc key x (sortDesc key xs)

/-! ## Full-test generation (app/test_service.py)

`CHAPTER_WEIGHTAGE` holds float weights in the source; every weight is an
exact multiple of 0.01 and at the products this function takes the doubles
round to the same values as exact rational arithmetic, so the weights are
embedded as integer percentages. -/

def CHAPTER_WEIGHTAGE : List (String × Nat) :=
  [("Pharmacology", 32), ("Pharmaceutics", 20), ("Drug Laws", 15),
   ("Microbiology", 10), ("Pharmaceutical Chemistry", 10),
   ("Hospital Pharmacy", 7), ("Reasoning", 6)]

def DEFAULT_TOTAL_QUESTIONS : Nat := 100

/-- Python `round` (half-to-even) of the exact ratio `a / b`, `b > 0`. -/
def roundHalfEvenDiv (a b : Nat) : Nat :=
  let q := a / b
  let r := a % b
  if 2 * r < b then q
  else if b < 2 * r then q + 1
  else if q % 2 = 0 then q else q + 1

/-- `count = max(1, round(total * weight))` with the weight as a percent. -/
def weightCount (total : Nat) (p : Nat) : Nat :=
  max 1 (roundHalfEvenDiv (total * p) 100)

/-- The question-id selection of `generate_full_test`: one capped random
draw per chapter of the weight table, an error only when the union of all
draws is empty, and a trim when rounding overshot.  There is no fallback
pass: a chapter shortfall is simply returned short. -/
def generate_full_test_ids (bank : List Question) (total : Nat) :
    Except ApiError (List Nat) :=
  let selected := CHAPTER_WEIGHTAGE.foldl
    (fun acc e =>
      acc ++ ((bank.filter (fun q => q.chapter == e.1)).map (·.id)).take
        (weightCount total e.2))
    []
  if selected.isEmpty then
    .error (.badRequest "Not enough questions in the bank to generate a test.")
  else if total < selected.length then .ok (selected.take total)
  else .ok selected

/-! ## Deck generation (app/deck_generator.py)

The float weights of `CHAPTER_WEIGHTS` are exact hundredths and
`int(DECK_SIZE * weight)` equals the exact floor for every entry, so the
weights are embedded as integer percentages. -/

def CHAPTER_WEIGHTS : List (String × Nat) :=
  [("Pharmacology", 30), ("Pharmaceutics", 20), ("Pharmaceutical Chemistry", 20),
   ("Microbiology", 10), ("Pharmacognosy", 10), ("Drug Laws", 5),
   ("Clinical Pharmacy", 5)]

def DECK_SIZE : Nat := 20

/-- `sorted(CHAPTER_WEIGHTS.items(), key=weight, reverse=True)` — a stable
descending sort. -/
def sortedChapters : List (String × Nat) := sortDesc (·.2) CHAPTER_WEIGHTS

/-- `DeckGenerator._calculate_chapter_targets`: every chapter but the last
of the descending-weight order gets `int(DECK_SIZE * weight)`, the last
gets the remainder. -/
def _calculate_chapter_targets : List (String × Nat) :=
  let sc := sortedChapters
  let fronts := sc.dropLast.map (fun e => (e.1, DECK_SIZE * e.2 / 100))
  let allocated := (fronts.map (·.2)).sum
  match sc.getLast? with
  | none => []
  | some lastE => fronts ++ [(lastE.1, DECK_SIZE - allocated)]

/-- `DeckGenerator._pull_chapter_questions`: a capped random draw from one
chapter minus an exclusion set, modelled as a prefix of the filtered bank. -/
def _pull_chapter_questions (bank : List Question) (chapter : String)
    (count : Nat) (exclude_ids : List Nat) : List Question :=
  (bank.filter (fun q => q.chapter == chapter && !(exclude_ids.contains q.id))).take count

/-- The quota loop of `DeckGenerator.generate_deck` with its
`remaining_needed` early break. -/
def deckQuotaPass (bank : List Question) (mastered : List Nat) :
    List (String × Nat) → List Question → Nat → List Question
  | [], selected, _ => selected
  | e :: rest, selected, remaining =>
    if remaining = 0 then selected
    else
      let qs := _pull_chapter_questions bank e.1 e.2 (mastered ++ selected.map (·.id))
      deckQuotaPass bank mastered rest (selected ++ qs) (remaining - qs.length)

/-- The chapter loop inside `DeckGenerator._fill_remaining_slots`. -/
def deckFillLoop (bank : List Question) (exclude_ids : List Nat) :
    List (String × Nat) → List Question → Nat → List Question
  | [], additional, _ => additional
  | e :: rest, additional, needed =>
    if needed ≤ additional.length then additional
    else
      let qs := _pull_chapter_questions bank e.1 (needed - additional.length)
        (exclude_ids ++ additional.map (·.id))
      deckFillLoop bank exclude_ids rest (additional ++ qs) needed

/-- `DeckGenerator._fill_remaining_slots`. -/
def _fill_remaining_slots (bank : List Question) (current : List Question)
    (mastered : List Nat) (needed : Nat) : List Question :=
  if needed = 0 then current
  else current ++
    deckFillLoop bank (mastered ++ current.map (·.id)) sortedChapters [] needed

/-- `DeckGenerator.generate_deck` up to the final `random.shuffle`, which
permutes the result and affects neither its length nor its membership. -/
def generate_deck (bank : List Question) (mastered : List Nat) : List Question :=
  let selected := deckQuotaPass bank mastered _calculate_chapter_targets [] DECK_SIZE
  let selected :=
    if selected.length < DECK_SIZE then
      _fill_remaining_slots bank selected mastered (DECK_SIZE - selected.length)
    else selected
  if DECK_SIZE < selected.length then selected.take DECK_SIZE else selected

/-! ## Daily test mode (app/daily_test_service.py) -/

structure QuestionBrief where
  id : Nat
  question_text : String
  option_a : String
  option_b : String
  option_c : String
  option_d : String
  chapter : String
  category : CategoryEnum
  difficulty : Int
  deriving DecidableEq, Repr

def briefOf (q : Question) : QuestionBrief :=
  { id := q.id, question_text := q.question_text, option_a := q.option_a,
    option_b := q.option_b, option_c := q.option_c, option_d := q.option_d,
    chapter := q.chapter, category := q.category, difficulty := q.difficulty }

structure DailyTest where
  id : Nat
  test_date : String
  deriving DecidableEq, Repr

structure DailyTestQuestion where
  daily_test_id : Nat
  question_id : Nat
  question_order : Nat
  deriving DecidableEq, Repr

structure DailyTestAttempt where
  id : Nat
  daily_test_id : Nat
  user_id : Nat
  correct_count : Nat
  wrong_count : Nat
  score : ℚ
  completed : Bool
  completed_at : Option Nat
  deriving DecidableEq, Repr

structure DailyTestAnswer where
  attempt_id : Nat
  question_id : Nat
  selected_option : CorrectOptionEnum
  is_correct : Bool
  answered_at : Nat
  deriving DecidableEq, Repr

structure DailyDB where
  questions : List Question
  daily_tests : List DailyTest
  daily_test_questions : List DailyTestQuestion
  daily_attempts : List DailyTestAttempt
  daily_answers : List DailyTestAnswer
  next_daily_test_id : Nat
  next_attempt_id : Nat
  deriving DecidableEq, Repr

/-- `_random_questions_by_chapter`: capped random draw, prefix model. -/
def _random_questions_by_chapter (bank : List Question) (chapter : String)
    (count : Nat) : List Nat :=
  ((bank.filter (fun q => q.chapter == chapter)).map (·.id)).take count

/-- The fixed draw sequence of `_get_or_create_daily_test`:
3 Pharmacology + 2 Pharmaceutics + 2 Drug Laws + 1 Micro/Chem +
1 Hospital Pharmacy + 1 Current Affairs/Case Law. -/
def dailyDraw (bank : List Question) : List Nat :=
  _random_questions_by_chapter bank "Pharmacology" 3
  ++ _random_questions_by_chapter bank "Pharmaceutics" 2
  ++ _random_questions_by_chapter bank "Drug Laws" 2
  ++ ((bank.filter (fun q =>
        q.chapter == "Microbiology" || q.chapter == "Pharmaceutical Chemistry")).map
        (·.id)).take 1
  ++ _random_questions_by_chapter bank "Hospital Pharmacy" 1
  ++ ((bank.filter (fun q =>
        q.category == CategoryEnum.current_affairs
        || q.category == CategoryEnum.case_law)).map (·.id)).take 1

/-- `_get_or_create_daily_test`: adopt the existing row for the date, or
generate, persist and return a fresh one. -/
def _get_or_create_daily_test (db : DailyDB) (test_date : String) :
    Except ApiError (DailyDB × DailyTest) :=
  match db.daily_tests.find? (fun t => t.test_date == test_date) with
  | some existing => .ok (db, existing)
  | none =>
    let selected_ids := dailyDraw db.questions
    if selected_ids.length < 1 then
      .error (.badRequest "Not enough questions in the bank for daily test.")
    else
      let daily_test : DailyTest := { id := db.next_daily_test_id, test_date := test_date }
      let rows := (selected_ids.enum).map (fun e =>
        { daily_test_id := daily_test.id, question_id := e.2,
          question_order := e.1 : DailyTestQuestion })
      .ok ({ db with daily_tests := db.daily_tests ++ [daily_test],
                     daily_test_questions := db.daily_test_questions ++ rows,
                     next_daily_test_id := db.next_daily_test_id + 1 },
           daily_test)

structure DailyTestOut where
  daily_test_id : Nat
  attempt_id : Nat
  test_date : String
  questions : List QuestionBrief
  deriving DecidableEq, Repr

/-- The `QuestionBrief` list built from the daily test's rows; `none` only
when a question row is missing, where the Python would raise. -/
def questionBriefs (bank : List Question) (qids : List Nat) :
    Option (List QuestionBrief) :=
  qids.mapM (fun qid => (bank.find? (fun q => q.id == qid)).map briefOf)

/-- `start_daily_test`: get-or-create the shared set for the date, then
get-or-create this user's attempt against it, then return the ordered
question briefs. -/
def start_daily_test (db : DailyDB) (user_id : Nat) (date : String) :
    Except ApiError (DailyDB × DailyTestOut) :=
  match _get_or_create_daily_test db date with
  | .error e => .error e
  | .ok (db1, daily_test) =>
    let created : DailyDB × Nat :=
      match db1.daily_attempts.find?
          (fun a => a.daily_test_id == daily_test.id && a.user_id == user_id) with
      | some a => (db1, a.id)
      | none =>
        ({ db1 with
            daily_attempts := db1.daily_attempts ++
              [{ id := db1.next_attempt_id, daily_test_id := daily_test.id,
                 user_id := user_id, correct_count := 0, wrong_count := 0,
                 score := 0, completed := false, completed_at := none }],
            next_attempt_id := db1.next_attempt_id + 1 },
         db1.next_attempt_id)
    let db2 := created.1
    let dtqs := sortAsc (·.question_order)
      (db2.daily_test_questions.filter (fun r => r.daily_test_id == daily_test.id))
    match questionBriefs db2.questions (dtqs.map (·.question_id)) with
    | none => .error (.notFound "Question row missing")
    | some briefs =>
      .ok (db2, { daily_test_id := daily_test.id, attempt_id := created.2,
                  test_date := date, questions := briefs })

structure DailyTestAnswerRequest where
  attempt_id : Nat
  question_id : Nat
  selected_option : CorrectOptionEnum
  deriving DecidableEq, Repr

def dailyAttemptKey (attempt_id user_id : Nat) (a : DailyTestAttempt) : Bool :=
  a.id == attempt_id && a.user_id == user_id

def dailyAnswerKey (attempt_id question_id : Nat) (a : DailyTestAnswer) : Bool :=
  a.attempt_id == attempt_id && a.question_id == question_id

/-- `answer_daily_question`: the same check/compute/upsert shape as
`answer_test_question`; the return value is the same triple, as a dict. -/
def answer_daily_question (db : DailyDB) (user_id : Nat)
    (req : DailyTestAnswerRequest) (now : Nat) :
    DailyDB × Except ApiError TestAnswerResult :=
  match db.daily_attempts.find? (dailyAttemptKey req.attempt_id user_id) with
  | none => (db, .error (.notFound "Attempt not found"))
  | some attempt =>
    if attempt.completed then
      (db, .error (.badRequest "Daily test already submitted"))
    else
      match db.daily_test_questions.find?
          (fun r => r.daily_test_id == attempt.daily_test_id
                    && r.question_id == req.question_id) with
      | none => (db, .error (.notFound "Question not in this daily test"))
      | some _ =>
        match db.questions.find? (fun q => q.id == req.question_id) with
        | none => (db, .error (.notFound "Question row missing"))
        | some question =>
          let is_correct := req.selected_option == question.correct_option
          let answers' :=
            if (db.daily_answers.find? (dailyAnswerKey req.attempt_id req.question_id)).isSome then
              updateFirst (dailyAnswerKey req.attempt_id req.question_id)
                (fun a => { a with selected_option := req.selected_option,
                                   is_correct := is_correct, answered_at := now })
                db.daily_answers
            else
              db.daily_answers ++
                [{ attempt_id := req.attempt_id, question_id := req.question_id,
                   selected_option := req.selected_option, is_correct := is_correct,
                   answered_at := now }]
          ({ db with daily_answers := answers' },
           .ok { correct := is_correct, correct_option := question.correct_option,
                 explanation := question.explanation })

/-! ## Flashcard mastery mode (app/flashcard_service.py) -/

structure FlashcardSession where
  id : Nat
  user_id : Nat
  deck_id : Nat
  completed : Bool
  deriving DecidableEq, Repr

structure FlashcardSessionQuestion where
  session_id : Nat
  question_id : Nat
  status : FlashcardStatus
  shuffle_order : Nat
  last_attempted_at : Option Nat
  deriving DecidableEq, Repr

structure FlashDB where
  questions : List Question
  sessions : List FlashcardSession
  session_questions : List FlashcardSessionQuestion
  progress : List UserQuestionProgress
  deriving DecidableEq, Repr

structure FlashcardAnswerRequest where
  session_id : Nat
  question_id : Nat
  selected_option : CorrectOptionEnum
  deriving DecidableEq, Repr

structure FlashcardAnswerResult where
  correct : Bool
  correct_option : CorrectOptionEnum
  explanation : String
  pending_count : Nat
  completed : Bool
  deriving DecidableEq, Repr

structure FlashcardNextQuestion where
  session_id : Nat
  question : Option QuestionBrief
  pending_count : Nat
  completed : Bool
  deriving DecidableEq, Repr

def sessionKey (session_id user_id : Nat) (s : FlashcardSession) : Bool :=
  s.id == session_id && s.user_id == user_id

def sqKey (session_id question_id : Nat) (s : FlashcardSessionQuestion) : Bool :=
  s.session_id == session_id && s.question_id == question_id

def sessionPending (session_id : Nat) (s : FlashcardSessionQuestion) : Bool :=
  s.session_id == session_id && s.status == FlashcardStatus.pending

/-- `answer_flashcard`: checks, correctness, mastery tracking, then either
status := correct (removal from the queue) or a requeue to
`max(shuffle_order) + 1`; finally the session completes exactly when no
pending row of the session remains. -/
def answer_flashcard (db : FlashDB) (user_id : Nat) (req : FlashcardAnswerRequest)
    (now : Nat) : FlashDB × Except ApiError FlashcardAnswerResult :=
  match db.sessions.find? (sessionKey req.session_id user_id) with
  | none => (db, .error (.notFound "Session not found"))
  | some session =>
    if session.completed then
      (db, .error (.badRequest "Session already completed"))
    else
      match db.session_questions.find? (sqKey req.session_id req.question_id) with
      | none => (db, .error (.notFound "Question not in this session"))
      | some _ =>
        match db.questions.find? (fun q => q.id == req.question_id) with
        | none => (db, .error (.notFound "Question row missing"))
        | some question =>
          let is_correct := req.selected_option == question.correct_option
          let sqs1 := updateFirst (sqKey req.session_id req.question_id)
            (fun s => { s with last_attempted_at := some now }) db.session_questions
          let progress' := record_answer db.progress user_id req.question_id is_correct now
          let sqs2 :=
            if is_correct then
              updateFirst (sqKey req.session_id req.question_id)
                (fun s => { s with status := FlashcardStatus.correct }) sqs1
            else
              let max_order := ((sqs1.filter (fun s => s.session_id == req.session_id)).map
                (·.shuffle_order)).max?
              updateFirst (sqKey req.session_id req.question_id)
                (fun s => { s with shuffle_order :=
                  match max_order with | some m => m + 1 | none => 0 }) sqs1
          let pending_count := sqs2.countP (sessionPending req.session_id)
          let completed := pending_count == 0
          let sessions' :=
            if completed then
              updateFirst (sessionKey req.session_id user_id)
                (fun s => { s with completed := true }) db.sessions
            else db.sessions
          ({ db with sessions := sessions', session_questions := sqs2,
                     progress := progress' },
           .ok { correct := is_correct, correct_option := question.correct_option,
                 explanation := question.explanation, pending_count := pending_count,
                 completed := completed })

/-- `get_next_flashcard`: the pending row with the lowest `shuffle_order`;
marks the session completed when none remains. -/
def get_next_flashcard (db : FlashDB) (user_id session_id : Nat) :
    FlashDB × Except ApiError FlashcardNextQuestion :=
  match db.sessions.find? (sessionKey session_id user_id) with
  | none => (db, .error (.notFound "Session not found"))
  | some session =>
    if session.completed then
      (db, .ok { session_id := session_id, question := none, pending_count := 0,
                 completed := true })
    else
      let pending := sortAsc (·.shuffle_order)
        (db.session_questions.filter (sessionPending session_id))
      match pending with
      | [] =>
        let sessions' := updateFirst (sessionKey session_id user_id)
          (fun s => { s with completed := true }) db.sessions
        ({ db with sessions := sessions' },
         .ok { session_id := session_id, question := none, pending_count := 0,
               completed := true })
      | sq :: _ =>
        match db.questions.find? (fun q => q.id == sq.question_id) with
        | none => (db, .error (.notFound "Question row missing"))
        | some q =>
          (db, .ok { session_id := session_id, question := some (briefOf q),
                     pending_count := pending.length, completed := false })

/-! ## CSV import (app/crud.py) -/

def REQUIRED_HEADERS : List String :=
  ["question_text", "option_a", "option_b", "option_c", "option_d",
   "correct_option", "explanation", "chapter", "category", "difficulty",
   "deck_name"]

def VALID_CATEGORIES : List String := ["technical", "current_affairs", "case_law"]

def VALID_OPTIONS : List String := ["A", "B", "C", "D"]

/-- One parsed CSV data row; `row.get(...) or ""` coalescing already
applied, so every field is a plain string. -/
structure CsvRow where
  question_text : String
  option_a : String
  option_b : String
  option_c : String
  option_d : String
  correct_option : String
  explanation : String
  chapter : String
  category : String
  difficulty : String
  deck_name : String
  deriving DecidableEq, Repr

/-- The per-row validation failures collected by `process_csv_upload`; the
Python formats each as human-readable text. -/
inductive RowError where
  | emptyQuestionText
  | invalidCorrectOption
  | difficultyOutOfRange
  | difficultyNotANumber
  | emptyChapter
  | invalidCategory
  | emptyDeckName
  deriving DecidableEq, Repr

/-- Digits of a Python integer literal after the first digit: single
underscores are permitted between digits. -/
def pyDigitsAux (acc : Nat) : List Char → Option Nat
  | [] => some acc
  | '_' :: c :: cs =>
      if c.isDigit then pyDigitsAux (acc * 10 + (c.toNat - 48)) cs else none
  | ['_'] => none
  | c :: cs =>
      if c.isDigit then pyDigitsAux (acc * 10 + (c.toNat - 48)) cs else none

def pyDigits : List Char → Option Nat
  | [] => none
  | c :: cs => if c.isDigit then pyDigitsAux (c.toNat - 48) cs else none

/-- Python `int(s)` on an already-stripped string: optional sign, decimal
digits with optional single underscores between them. -/
def pyInt (s : String) : Option Int :=
  match s.toList with
  | '+' :: cs => (pyDigits cs).map (fun n => (n : Int))
  | '-' :: cs => (pyDigits cs).map (fun n => -(n : Int))
  | cs => (pyDigits cs).map (fun n => (n : Int))

/-- Python `str.strip()`: whitespace removed from both ends. -/
def pyStrip (s : String) : String :=
  String.mk (((s.toList.dropWhile Char.isWhitespace).reverse.dropWhile
    Char.isWhitespace).reverse)

/-- Python `str.upper()` on the ASCII letters the CSV uses. -/
def pyUpper (s : String) : String := String.mk (s.toList.map Char.toUpper)

/-- Python `str.lower()` on the ASCII letters the CSV uses. -/
def pyLower (s : String) : String := String.mk (s.toList.map Char.toLower)

/-- The validation block of the row loop in `process_csv_upload`, in
source order. -/
def validateRow (r : CsvRow) : List RowError :=
  (if pyStrip r.question_text = "" then [RowError.emptyQuestionText] else [])
  ++ (if VALID_OPTIONS.contains (pyUpper (pyStrip r.correct_option)) then []
      else [RowError.invalidCorrectOption])
  ++ (match pyInt (pyStrip r.difficulty) with
      | some d => if d < 1 ∨ 5 < d then [RowError.difficultyOutOfRange] else []
      | none => [RowError.difficultyNotANumber])
  ++ (if pyStrip r.chapter = "" then [RowError.emptyChapter] else [])
  ++ (if VALID_CATEGORIES.contains (pyLower (pyStrip r.category)) then []
      else [RowError.invalidCategory])
  ++ (if pyStrip r.deck_name = "" then [RowError.emptyDeckName] else [])

/-- The normalized dict appended to `valid_rows` for a clean row. -/
structure ValidRow where
  question_text : String
  option_a : String
  option_b : String
  option_c : String
  option_d : String
  correct_option : String
  explanation : String
  chapter : String
  category : String
  difficulty : Int
  deck_name : String
  deriving DecidableEq, Repr

def toValidRow (r : CsvRow) : ValidRow :=
  { question_text := pyStrip r.question_text, option_a := pyStrip r.option_a,
    option_b := pyStrip r.option_b, option_c := pyStrip r.option_c,
    option_d := pyStrip r.option_d,
    correct_option := pyUpper (pyStrip r.correct_option),
    explanation := pyStrip r.explanation, chapter := pyStrip r.chapter,
    category := pyLower (pyStrip r.category),
    difficulty := (pyInt (pyStrip r.difficulty)).getD 0,
    deck_name := pyStrip r.deck_name }

/-- The row loop `for i, row in enumerate(rows, start=2)`: an invalid row
is reported under its 1-based CSV row number (header = row 1) and skipped;
a valid row is kept for insertion. -/
def processRows : List CsvRow → Nat → List (Nat × List RowError) × List ValidRow
  | [], _ => ([], [])
  | r :: rest, i =>
    let tail := processRows rest (i + 1)
    match validateRow r with
    | [] => (tail.1, toValidRow r :: tail.2)
    | errs => ((i, errs) :: tail.1, tail.2)

/-- `process_csv_upload` up to the database-insertion phase: exact header
match required, empty bodies rejected, then the row loop starting at
human-visible row 2. -/
def process_csv_upload (headers : List String) (rows : List CsvRow) :
    Except ApiError (List (Nat × List RowError) × List ValidRow) :=
  if headers ≠ REQUIRED_HEADERS then .error (.badRequest "CSV header mismatch.")
  else if rows.isEmpty then .error (.badRequest "CSV has no data rows.")
  else .ok (processRows rows 2)

/-! ## Concrete fixtures used by the witness theorems -/

def exQ5 : Question :=
  { id := 5, question_text := "q", option_a := "a", option_b := "b",
    option_c := "c", option_d := "d", correct_option := CorrectOptionEnum.B,
    explanation := "expl", chapter := "Pharmacology",
    category := CategoryEnum.technical, difficulty := 2 }

def exUpsertDB : TestDB :=
  { questions := [exQ5],
    attempts := [{ id := 1, user_id := 1, total_questions := 1, correct_count := 0,
                   wrong_count := 0, unanswered_count := 0, score := 0,
                   negative_marks := 0, final_score := 0, completed := false,
                   completed_at := none }],
    test_questions := [{ attempt_id := 1, question_id := 5, question_order := 0 }],
    test_answers := [{ attempt_id := 1, question_id := 5,
                       selected_option := CorrectOptionEnum.A, is_correct := false,
                       answered_at := 3 }] }

def exFlashDB : FlashDB :=
  { questions := [exQ5],
    sessions := [{ id := 1, user_id := 1, deck_id := 1, completed := false }],
    session_questions :=
      [{ session_id := 1, question_id := 5, status := FlashcardStatus.correct,
         shuffle_order := 0, last_attempted_at := none },
       { session_id := 1, question_id := 6, status := FlashcardStatus.pending,
         shuffle_order := 1, last_attempted_at := none }],
    progress := [] }

def exFq1 : Question := { exQ5 with id := 1 }
def exFq2 : Question := { exQ5 with id := 2 }
def exFq3 : Question := { exQ5 with id := 3 }

def exFlash3 : FlashDB :=
  { questions := [exFq1, exFq2, exFq3],
    sessions := [{ id := 1, user_id := 1, deck_id := 1, completed := false }],
    session_questions :=
      [{ session_id := 1, question_id := 1, status := FlashcardStatus.pending,
         shuffle_order := 0, last_attempted_at := none },
       { session_id := 1, question_id := 2, status := FlashcardStatus.pending,
         shuffle_order := 1, last_attempted_at := none },
       { session_id := 1, question_id := 3, status := FlashcardStatus.pending,
         shuffle_order := 2, last_attempted_at := none }],
    progress := [] }

def exDailyDB : DailyDB :=
  { questions := [exQ5], daily_tests := [], daily_test_questions := [],
    daily_attempts := [], daily_answers := [], next_daily_test_id := 1,
    next_attempt_id := 1 }

/-- The state after the first user starts the daily test on 2026-10-12
against `exDailyDB`. -/
def exDailyDB1 : DailyDB :=
  { questions := [exQ5],
    daily_tests := [{ id := 1, test_date := "2026-10-12" }],
    daily_test_questions := [{ daily_test_id := 1, question_id := 5, question_order := 0 }],
    daily_attempts := [{ id := 1, daily_test_id := 1, user_id := 1, correct_count := 0,
                         wrong_count := 0, score := 0, completed := false,
                         completed_at := none }],
    daily_answers := [], next_daily_test_id := 2, next_attempt_id := 2 }

/-- The state after only the shared daily set for 2026-10-12 is created. -/
def exDailyDBg : DailyDB :=
  { exDailyDB1 with daily_attempts := [], next_attempt_id := 1 }

/-- A bank of 40 Pharmacology questions: ample supply, single chapter. -/
def c2Bank : List Question := (List.range 40).map (fun i => { exQ5 with id := i })


/-- A 10-question full test attempt for the C1 witness: question ids 1-5
in Pharmacology, 6-10 in Pharmaceutics; answers recorded for ids 1-9
(ids 1-6 correct, 7-9 wrong), id 10 left unanswered. -/
def exC1Q (i : Nat) : Question :=
  { exQ5 with id := i,
              chapter := if i ≤ 5 then "Pharmacology" else "Pharmaceutics" }

def exC1Attempt : TestAttempt :=
  { id := 7, user_id := 2, total_questions := 10, correct_count := 0,
    wrong_count := 0, unanswered_count := 0, score := 0,
    negative_marks := 0, final_score := 0, completed := false,
    completed_at := none }

def exC1DB : TestDB :=
  { questions := (List.range 10).map (fun i => exC1Q (i + 1)),
    attempts := [exC1Attempt],
    test_questions := (List.range 10).map
      (fun i => { attempt_id := 7, question_id := i + 1, question_order := i }),
    test_answers := (List.range 9).map
      (fun i => { attempt_id := 7, question_id := i + 1,
                  selected_option := if i + 1 ≤ 6 then CorrectOptionEnum.B
                                     else CorrectOptionEnum.A,
                  is_correct := decide (i + 1 ≤ 6), answered_at := 0 }) }


/-- Three CSV data rows for the C9 witness: rows 2 and 4 are clean, row 3
has an empty question text and an invalid correct option. -/
def exCsvGood : CsvRow :=
  { question_text := " What is X? ", option_a := "a1", option_b := "b1",
    option_c := "c1", option_d := "d1", correct_option := " b ",
    explanation := "because", chapter := "Pharmacology",
    category := "Technical", difficulty := " 3 ", deck_name := "Deck 1" }

def exCsvBad : CsvRow :=
  { question_text := "   ", option_a := "a", option_b := "b", option_c := "c",
    option_d := "d", correct_option := "E", explanation := "",
    chapter := "Pharmacology", category := "technical", difficulty := "2",
    deck_name := "Deck 1" }

def exCsvGood2 : CsvRow :=
  { exCsvGood with question_text := "Q2", difficulty := "5" }

/-! ## Helper lemmas -/

theorem updateFirst_cons_pos (p : α → Bool) (f : α → α) {x : α} (xs : List α)
    (h : p x = true) : updateFirst p f (x :: xs) = f x :: xs := by
  simp [updateFirst, h]

theorem updateFirst_cons_neg (p : α → Bool) (f : α → α) {x : α} (xs : List α)
    (h : p x = false) : updateFirst p f (x :: xs) = x :: updateFirst p f xs := by
  simp [updateFirst, h]

theorem length_updateFirst (p : α → Bool) (f : α → α) :
    ∀ l : List α, (updateFirst p f l).length = l.length := by
  intro l
  induction l with
  | nil => rfl
  | cons x xs ih =>
    cases hx : p x
    · rw [updateFirst_cons_neg p f xs hx]
      simp [ih]
    · rw [updateFirst_cons_pos p f xs hx]
      simp

theorem getElem?_updateFirst (p : α → Bool) (f : α → α) :
    ∀ (l : List α) (i : Nat),
      (updateFirst p f l)[i]? = l[i]?
      ∨ ∃ x, l[i]? = some x ∧ p x = true ∧ (updateFirst p f l)[i]? = some (f x) := by
  intro l
  induction l with
  | nil => intro i; left; rfl
  | cons x xs ih =>
    intro i
    cases hx : p x
    · rw [updateFirst_cons_neg p f xs hx]
      cases i with
      | zero => left; simp
      | succ j =>
        rcases ih j with h | ⟨y, hy, hpy, hy'⟩
        · left; simpa using h
        · right; exact ⟨y, by simpa using hy, hpy, by simpa using hy'⟩
    · rw [updateFirst_cons_pos p f xs hx]
      cases i with
      | zero => right; exact ⟨x, by simp, hx, by simp⟩
      | succ j => left; simp

theorem find?_updateFirst_self (p : α → Bool) (f : α → α)
    (h : ∀ x, p x = true → p (f x) = true) :
    ∀ l : List α, (updateFirst p f l).find? p = (l.find? p).map f := by
  intro l
  induction l with
  | nil => rfl
  | cons x xs ih =>
    cases hx : p x
    · rw [updateFirst_cons_neg p f xs hx, List.find?_cons_of_neg _ (by simp [hx]),
        List.find?_cons_of_neg _ (by simp [hx]), ih]
    · rw [updateFirst_cons_pos p f xs hx, List.find?_cons_of_pos _ (h x hx),
        List.find?_cons_of_pos _ hx]
      rfl

theorem find?_updateFirst_other (p q : α → Bool) (f : α → α)
    (h : ∀ x, q x = true → p x = false ∧ p (f x) = false) :
    ∀ l : List α, (updateFirst q f l).find? p = l.find? p := by
  intro l
  induction l with
  | nil => rfl
  | cons x xs ih =>
    cases hx : q x
    · rw [updateFirst_cons_neg q f xs hx]
      cases hpx : p x
      · rw [List.find?_cons_of_neg _ (by simp [hpx]),
          List.find?_cons_of_neg _ (by simp [hpx]), ih]
      · rw [List.find?_cons_of_pos _ hpx, List.find?_cons_of_pos _ hpx]
    · obtain ⟨h1, h2⟩ := h x hx
      rw [updateFirst_cons_pos q f xs hx, List.find?_cons_of_neg _ (by simp [h2]),
        List.find?_cons_of_neg _ (by simp [h1])]

theorem countP_updateFirst_eq (p q : α → Bool) (f : α → α)
    (h : ∀ x, p x = true → q (f x) = q x) :
    ∀ l : List α, (updateFirst p f l).countP q = l.countP q := by
  intro l
  induction l with
  | nil => rfl
  | cons x xs ih =>
    cases hx : p x
    · rw [updateFirst_cons_neg p f xs hx, List.countP_cons, List.countP_cons, ih]
    · rw [updateFirst_cons_pos p f xs hx, List.countP_cons, List.countP_cons, h x hx]

theorem countP_updateFirst_le (p q : α → Bool) (f : α → α)
    (h : ∀ x, q (f x) = true → q x = true) :
    ∀ l : List α, (updateFirst p f l).countP q ≤ l.countP q := by
  intro l
  induction l with
  | nil => exact le_refl _
  | cons x xs ih =>
    cases hx : p x
    · rw [updateFirst_cons_neg p f xs hx, List.countP_cons, List.countP_cons]
      exact Nat.add_le_add ih (le_refl _)
    · rw [updateFirst_cons_pos p f xs hx, List.countP_cons, List.countP_cons]
      refine Nat.add_le_add (le_refl _) ?_
      cases hq : q (f x)
      · simp
      · simp [h x hq]

theorem mem_of_mem_updateFirst (p : α → Bool) (f : α → α) {y : α} :
    ∀ l : List α, y ∈ updateFirst p f l → y ∈ l ∨ ∃ x ∈ l, p x = true ∧ y = f x := by
  intro l
  induction l with
  | nil => intro h; simp [updateFirst] at h
  | cons x xs ih =>
    intro hmem
    cases hx : p x
    · rw [updateFirst_cons_neg p f xs hx] at hmem
      rcases List.mem_cons.mp hmem with h | h
      · exact Or.inl (by simp [h])
      · rcases ih h with h' | ⟨z, hz, hpz, hyz⟩
        · exact Or.inl (List.mem_cons_of_mem x h')
        · exact Or.inr ⟨z, List.mem_cons_of_mem x hz, hpz, hyz⟩
    · rw [updateFirst_cons_pos p f xs hx] at hmem
      rcases List.mem_cons.mp hmem with h | h
      · exact Or.inr ⟨x, List.mem_cons_self x xs, hx, h⟩
      · exact Or.inl (List.mem_cons_of_mem x h)

/-! ## Claim C3: first-try mastery is monotone -/

theorem stepProgress_key (is_correct : Bool) (now : Nat) (x : UserQuestionProgress) :
    (stepProgress is_correct now x).user_id = x.user_id
    ∧ (stepProgress is_correct now x).question_id = x.question_id := by
  simp only [stepProgress]
  split <;> simp

theorem stepProgress_attempts (is_correct : Bool) (now : Nat) (x : UserQuestionProgress) :
    (stepProgress is_correct now x).attempts = x.attempts + 1 := by
  simp only [stepProgress]
  split <;> simp

theorem stepProgress_ftc (is_correct : Bool) (now : Nat) (x : UserQuestionProgress) :
    (stepProgress is_correct now x).first_try_correct
      = ((x.attempts + 1 == 1 && is_correct) || x.first_try_correct) := by
  simp only [stepProgress]
  split
  · next h => simp_all
  · next h => simp_all

theorem progressKey_iff (u q : Nat) (x : UserQuestionProgress) :
    progressKey u q x = true ↔ x.user_id = u ∧ x.question_id = q := by
  simp [progressKey]

theorem progressKey_stepProgress (u q : Nat) (b : Bool) (now : Nat)
    (y : UserQuestionProgress) :
    progressKey u q (stepProgress b now y) = progressKey u q y := by
  unfold progressKey
  rw [(stepProgress_key b now y).1, (stepProgress_key b now y).2]

theorem progressKey_other (c : ProgressCall) (u q : Nat)
    (hk : ¬(c.user_id = u ∧ c.question_id = q)) :
    ∀ x, progressKey c.user_id c.question_id x = true →
      progressKey u q x = false
      ∧ progressKey u q (stepProgress c.is_correct c.now x) = false := by
  intro x hx
  have hx' := (progressKey_iff _ _ x).mp hx
  have h1 : progressKey u q x = false := by
    cases hpq : progressKey u q x with
    | false => rfl
    | true =>
      have h2 := (progressKey_iff u q x).mp hpq
      exact absurd ⟨by rw [← hx'.1]; exact h2.1, by rw [← hx'.2]; exact h2.2⟩ hk
  exact ⟨h1, by rw [progressKey_stepProgress]; exact h1⟩

theorem ftc_mono_step (rows : List UserQuestionProgress) (c : ProgressCall) (u q : Nat)
    (h : ftcOf rows u q = some true) :
    ftcOf (record_answer rows c.user_id c.question_id c.is_correct c.now) u q = some true := by
  unfold ftcOf record_answer
  by_cases hk : c.user_id = u ∧ c.question_id = q
  · obtain ⟨hu, hq⟩ := hk
    subst hu; subst hq
    cases hfind : rows.find? (progressKey c.user_id c.question_id) with
    | none => unfold ftcOf at h; rw [hfind] at h; simp at h
    | some x =>
      simp only [hfind]
      rw [find?_updateFirst_self _ _ (fun y hy => by
        rw [progressKey_stepProgress]; exact hy)]
      unfold ftcOf at h
      rw [hfind] at h
      rw [hfind]
      have hx : x.first_try_correct = true := by simpa using h
      simp [stepProgress_ftc, hx]
  · have hother := progressKey_other c u q hk
    cases hfind : rows.find? (progressKey c.user_id c.question_id) with
    | none =>
      simp only [hfind]
      unfold ftcOf at h
      rw [List.find?_append]
      have hnr : progressKey u q (stepProgress c.is_correct c.now
          { user_id := c.user_id, question_id := c.question_id, attempts := 0,
            first_try_correct := false, last_attempted := c.now }) = false :=
        (hother _ (by simp [progressKey])).2
      rw [List.find?_cons_of_neg _ (by simp [hnr]), List.find?_nil]
      simpa using h
    | some x =>
      simp only [hfind]
      rw [find?_updateFirst_other _ _ _ hother]
      exact h

theorem ftc_new_true_step (rows : List UserQuestionProgress) (c : ProgressCall) (u q : Nat)
    (hold : ftcOf rows u q ≠ some true)
    (hnew : ftcOf (record_answer rows c.user_id c.question_id c.is_correct c.now) u q
      = some true) :
    c.user_id = u ∧ c.question_id = q ∧ c.is_correct = true ∧
      attemptsOf (record_answer rows c.user_id c.question_id c.is_correct c.now) u q
        = some 1 := by
  by_cases hk : c.user_id = u ∧ c.question_id = q
  · obtain ⟨hu, hq⟩ := hk
    subst hu; subst hq
    unfold ftcOf record_answer at hnew
    unfold attemptsOf record_answer
    cases hfind : rows.find? (progressKey c.user_id c.question_id) with
    | none =>
      simp only [hfind] at hnew ⊢
      have hkey : progressKey c.user_id c.question_id (stepProgress c.is_correct c.now
          { user_id := c.user_id, question_id := c.question_id, attempts := 0,
            first_try_correct := false, last_attempted := c.now }) = true := by
        rw [progressKey_stepProgress]
        simp [progressKey]
      rw [List.find?_append, hfind, List.find?_cons_of_pos _ hkey] at hnew
      simp only [Option.none_or, Option.map_some', Option.some.injEq] at hnew
      rw [stepProgress_ftc] at hnew
      simp at hnew
      refine ⟨by trivial, by trivial, hnew, ?_⟩
      rw [List.find?_append, hfind, List.find?_cons_of_pos _ hkey]
      simp only [Option.none_or, Option.map_some', Option.some.injEq]
      rw [stepProgress_attempts]
    | some x =>
      simp only [hfind] at hnew ⊢
      have hself : ∀ y, progressKey c.user_id c.question_id y = true →
          progressKey c.user_id c.question_id (stepProgress c.is_correct c.now y) = true :=
        fun y hy => by rw [progressKey_stepProgress]; exact hy
      rw [find?_updateFirst_self _ _ hself, hfind] at hnew
      rw [find?_updateFirst_self _ _ hself, hfind]
      unfold ftcOf at hold
      rw [hfind] at hold
      have hxftc : x.first_try_correct = false := by
        cases hftc : x.first_try_correct with
        | false => rfl
        | true => exact absurd (by simp [hftc]) hold
      simp only [Option.map_some', Option.some.injEq] at hnew ⊢
      rw [stepProgress_ftc, hxftc] at hnew
      simp only [Bool.or_false, Bool.and_eq_true, beq_iff_eq] at hnew
      refine ⟨by trivial, by trivial, hnew.2, ?_⟩
      rw [stepProgress_attempts, hnew.1]
  · exfalso
    apply hold
    rw [← hnew]
    unfold ftcOf record_answer
    have hother := progressKey_other c u q hk
    cases hfind : rows.find? (progressKey c.user_id c.question_id) with
    | none =>
      simp only [hfind]
      rw [List.find?_append]
      have hnr : progressKey u q (stepProgress c.is_correct c.now
          { user_id := c.user_id, question_id := c.question_id, attempts := 0,
            first_try_correct := false, last_attempted := c.now }) = false :=
        (hother _ (by simp [progressKey])).2
      rw [List.find?_cons_of_neg _ (by simp [hnr]), List.find?_nil]
      simp
    | some x =>
      simp only [hfind]
      rw [find?_updateFirst_other _ _ _ hother]

/-- Claim C3: across any sequence of `record_answer` calls,
`first_try_correct` never transitions from true back to false, and it is
newly set only by a call targeting that (user, question) whose answer is
correct and which makes the record's attempt count exactly 1. -/
theorem first_try_correct_monotone :
    (∀ (rows : List UserQuestionProgress) (calls : List ProgressCall) (u q : Nat),
      ftcOf rows u q = some true → ftcOf (applyCalls rows calls) u q = some true)
    ∧ (∀ (rows : List UserQuestionProgress) (c : ProgressCall) (u q : Nat),
      ftcOf rows u q ≠ some true →
      ftcOf (record_answer rows c.user_id c.question_id c.is_correct c.now) u q
        = some true →
      c.user_id = u ∧ c.question_id = q ∧ c.is_correct = true ∧
        attemptsOf (record_answer rows c.user_id c.question_id c.is_correct c.now) u q
          = some 1) := by
  constructor
  · intro rows calls
    induction calls generalizing rows with
    | nil => intro u q h; exact h
    | cons c cs ih =>
      intro u q h
      exact ih _ u q (ftc_mono_step rows c u q h)
  · exact ftc_new_true_step

/-- Witness for C3 at a concrete trace: user 1 answers question 7
correctly on the first attempt, then wrongly twice; the flag is set by the
first call and survives the wrong answers. -/
theorem first_try_correct_monotone_witness :
    ftcOf (record_answer [] 1 7 true 0) 1 7 = some true
    ∧ ftcOf (applyCalls (record_answer [] 1 7 true 0)
        [⟨1, 7, false, 1⟩, ⟨1, 7, false, 2⟩]) 1 7 = some true
    ∧ (ftcOf [] 1 7 ≠ some true ∧ (1 : Nat) = 1 ∧ (7 : Nat) = 7 ∧ true = true ∧
        attemptsOf (record_answer [] 1 7 true 0) 1 7 = some 1) := by
  refine ⟨by decide, ?_, ?_⟩
  · exact first_try_correct_monotone.1 (record_answer [] 1 7 true 0)
      [⟨1, 7, false, 1⟩, ⟨1, 7, false, 2⟩] 1 7 (by decide)
  · have h := first_try_correct_monotone.2 [] ⟨1, 7, true, 0⟩ 1 7
      (by decide) (by decide)
    exact ⟨by decide, h.1, h.2.1, h.2.2.1, h.2.2.2⟩

/-! ## Claim C4: a completed attempt rejects all further answers -/

/-- Claim C4: for each of the three modes (full test, daily test,
flashcard session), once the attempt's completion flag is set, an answer
submission fails with the mode's already-completed error and the database
state is returned unchanged. -/
theorem completed_attempt_rejects_answers :
    (∀ (db : TestDB) (user_id : Nat) (req : TestAnswerRequest) (now : Nat)
       (a : TestAttempt),
      db.attempts.find? (testAttemptKey req.attempt_id user_id) = some a →
      a.completed = true →
      answer_test_question db user_id req now
        = (db, .error (.badRequest "Test already submitted")))
    ∧ (∀ (db : DailyDB) (user_id : Nat) (req : DailyTestAnswerRequest) (now : Nat)
       (a : DailyTestAttempt),
      db.daily_attempts.find? (dailyAttemptKey req.attempt_id user_id) = some a →
      a.completed = true →
      answer_daily_question db user_id req now
        = (db, .error (.badRequest "Daily test already submitted")))
    ∧ (∀ (db : FlashDB) (user_id : Nat) (req : FlashcardAnswerRequest) (now : Nat)
       (s : FlashcardSession),
      db.sessions.find? (sessionKey req.session_id user_id) = some s →
      s.completed = true →
      answer_flashcard db user_id req now
        = (db, .error (.badRequest "Session already completed"))) := by
  refine ⟨?_, ?_, ?_⟩
  · intro db user_id req now a hfind hc
    unfold answer_test_question
    simp only [hfind, hc, if_true]
  · intro db user_id req now a hfind hc
    unfold answer_daily_question
    simp only [hfind, hc, if_true]
  · intro db user_id req now s hfind hc
    unfold answer_flashcard
    simp only [hfind, hc, if_true]

/-- Witness for C4: one completed attempt per mode, each rejecting a new
answer and leaving the database untouched. -/
theorem completed_attempt_rejects_answers_witness :
    answer_test_question
        ⟨[], [⟨1, 1, 10, 0, 0, 0, 0, 0, 0, true, none⟩], [], []⟩ 1
        ⟨1, 5, CorrectOptionEnum.A⟩ 0
      = (⟨[], [⟨1, 1, 10, 0, 0, 0, 0, 0, 0, true, none⟩], [], []⟩,
         .error (.badRequest "Test already submitted"))
    ∧ answer_daily_question
        ⟨[], [], [], [⟨1, 1, 1, 0, 0, 0, true, none⟩], [], 0, 0⟩ 1
        ⟨1, 5, CorrectOptionEnum.A⟩ 0
      = (⟨[], [], [], [⟨1, 1, 1, 0, 0, 0, true, none⟩], [], 0, 0⟩,
         .error (.badRequest "Daily test already submitted"))
    ∧ answer_flashcard
        ⟨[], [⟨1, 1, 1, true⟩], [], []⟩ 1 ⟨1, 5, CorrectOptionEnum.A⟩ 0
      = (⟨[], [⟨1, 1, 1, true⟩], [], []⟩,
         .error (.badRequest "Session already completed")) := by
  refine ⟨?_, ?_, ?_⟩
  · exact completed_attempt_rejects_answers.1 _ 1 _ 0
      ⟨1, 1, 10, 0, 0, 0, 0, 0, 0, true, none⟩ (by decide) rfl
  · exact completed_attempt_rejects_answers.2.1 _ 1 _ 0
      ⟨1, 1, 1, 0, 0, 0, true, none⟩ (by decide) rfl
  · exact completed_attempt_rejects_answers.2.2 _ 1 _ 0
      ⟨1, 1, 1, true⟩ (by decide) rfl

/-! ## Claim C6: one answer row per (attempt, question), upserted -/

theorem countP_eq_zero_of_find?_none (p : α → Bool) (l : List α)
    (h : l.find? p = none) : l.countP p = 0 := by
  rw [List.countP_eq_zero]
  intro x hx
  exact List.find?_eq_none.mp h x hx

/-- Claim C6: `answer_test_question` preserves at-most-one answer row per
(attempt, question) pair; on success the row for the request's pair holds
the new selected option, the freshly recomputed correctness and the new
timestamp, the table grows only when no row existed, and the call returns
the correctness, the correct option and the explanation of the question. -/
theorem answer_upsert_unique (db : TestDB) (user_id : Nat) (req : TestAnswerRequest)
    (now : Nat) (db' : TestDB) (r : Except ApiError TestAnswerResult)
    (heq : answer_test_question db user_id req now = (db', r)) :
    (∀ a q : Nat,
      db.test_answers.countP (testAnswerKey a q) ≤ 1 →
      db'.test_answers.countP (testAnswerKey a q) ≤ 1)
    ∧ (∀ res, r = .ok res →
        db'.test_answers.find? (testAnswerKey req.attempt_id req.question_id)
          = some { attempt_id := req.attempt_id, question_id := req.question_id,
                   selected_option := req.selected_option, is_correct := res.correct,
                   answered_at := now }
        ∧ ((db.test_answers.find? (testAnswerKey req.attempt_id req.question_id)).isSome
              = true →
            db'.test_answers.length = db.test_answers.length)
        ∧ ((db.test_answers.find? (testAnswerKey req.attempt_id req.question_id)).isSome
              = false →
            db'.test_answers.length = db.test_answers.length + 1)
        ∧ ∃ question,
            db.questions.find? (fun qq => qq.id == req.question_id) = some question
            ∧ res.correct = (req.selected_option == question.correct_option)
            ∧ res.correct_option = question.correct_option
            ∧ res.explanation = question.explanation) := by
  unfold answer_test_question at heq
  cases hatt : db.attempts.find? (testAttemptKey req.attempt_id user_id) with
  | none =>
    simp only [hatt] at heq
    rw [Prod.mk.injEq] at heq
    obtain ⟨h1, h2⟩ := heq
    subst h1; subst h2
    exact ⟨fun a q h => h, fun res hres => by simp at hres⟩
  | some attempt =>
    simp only [hatt] at heq
    by_cases hcomp : attempt.completed
    · simp only [hcomp, if_true] at heq
      rw [Prod.mk.injEq] at heq
      obtain ⟨h1, h2⟩ := heq
      subst h1; subst h2
      exact ⟨fun a q h => h, fun res hres => by simp at hres⟩
    · simp only [hcomp, if_false, Bool.false_eq_true] at heq
      cases htq : db.test_questions.find?
          (fun tq => tq.attempt_id == req.attempt_id
                     && tq.question_id == req.question_id) with
      | none =>
        simp only [htq] at heq
        rw [Prod.mk.injEq] at heq
        obtain ⟨h1, h2⟩ := heq
        subst h1; subst h2
        exact ⟨fun a q h => h, fun res hres => by simp at hres⟩
      | some tq =>
        simp only [htq] at heq
        cases hq : db.questions.find? (fun qq => qq.id == req.question_id) with
        | none =>
          simp only [hq] at heq
          rw [Prod.mk.injEq] at heq
          obtain ⟨h1, h2⟩ := heq
          subst h1; subst h2
          exact ⟨fun a q h => h, fun res hres => by simp at hres⟩
        | some question =>
          simp only [hq] at heq
          cases hex : (db.test_answers.find?
              (testAnswerKey req.attempt_id req.question_id)).isSome with
          | true =>
            simp only [hex, if_true] at heq
            rw [Prod.mk.injEq] at heq
            obtain ⟨h1, h2⟩ := heq
            subst h1; subst h2
            have hkeep : ∀ (a q : Nat) (x : TestAnswer),
                testAnswerKey req.attempt_id req.question_id x = true →
                testAnswerKey a q
                    { x with selected_option := req.selected_option,
                             is_correct := req.selected_option == question.correct_option,
                             answered_at := now }
                  = testAnswerKey a q x := by
              intro a q x _
              rfl
            refine ⟨?_, ?_⟩
            · intro a q h
              calc (updateFirst (testAnswerKey req.attempt_id req.question_id) _
                      db.test_answers).countP (testAnswerKey a q)
                  = db.test_answers.countP (testAnswerKey a q) :=
                    countP_updateFirst_eq _ _ _ (hkeep a q) db.test_answers
                _ ≤ 1 := h
            · intro res hres
              obtain rfl : (TestAnswerResult.mk
                  (req.selected_option == question.correct_option)
                  question.correct_option question.explanation) = res := by
                simpa using hres
              obtain ⟨x, hx⟩ := Option.isSome_iff_exists.mp hex
              refine ⟨?_, fun _ => length_updateFirst _ _ db.test_answers, ?_, ?_⟩
              · dsimp only
                rw [find?_updateFirst_self _ _
                  (fun y hy => by rw [hkeep _ _ y hy]; exact hy), hx]
                have hxkey := List.find?_some hx
                unfold testAnswerKey at hxkey
                simp only [Bool.and_eq_true, beq_iff_eq] at hxkey
                cases x with
                | mk xa xq xs xi xt =>
                  dsimp only at hxkey
                  simp [hxkey.1, hxkey.2]
              · intro hfalse
                exact absurd hfalse (by simp)
              · exact ⟨question, rfl, rfl, rfl, rfl⟩
          | false =>
            simp only [hex, if_false, Bool.false_eq_true] at heq
            rw [Prod.mk.injEq] at heq
            obtain ⟨h1, h2⟩ := heq
            subst h1; subst h2
            have hnone : db.test_answers.find?
                (testAnswerKey req.attempt_id req.question_id) = none :=
              Option.not_isSome_iff_eq_none.mp (by rw [hex]; simp)
            refine ⟨?_, ?_⟩
            · intro a q h
              rw [List.countP_append]
              cases hnr : testAnswerKey a q
                  { attempt_id := req.attempt_id, question_id := req.question_id,
                    selected_option := req.selected_option,
                    is_correct := req.selected_option == question.correct_option,
                    answered_at := now } with
              | false => simpa [List.countP_cons, hnr] using h
              | true =>
                unfold testAnswerKey at hnr
                simp only [Bool.and_eq_true, beq_iff_eq] at hnr
                obtain ⟨rfl, rfl⟩ := hnr
                have hz := countP_eq_zero_of_find?_none _ _ hnone
                rw [hz]
                simp [List.countP_cons, testAnswerKey]
            · intro res hres
              obtain rfl : (TestAnswerResult.mk
                  (req.selected_option == question.correct_option)
                  question.correct_option question.explanation) = res := by
                simpa using hres
              refine ⟨?_, ?_, ?_, ?_⟩
              · dsimp only
                rw [List.find?_append, hnone, Option.none_or]
                rw [List.find?_cons_of_pos _ (by simp [testAnswerKey])]
              · intro htrue
                exact absurd htrue (by simp)
              · intro _
                dsimp only
                rw [List.length_append]
                rfl
              · exact ⟨question, rfl, rfl, rfl, rfl⟩

/-- Witness for C6: answering question 5 twice in one attempt updates the
single answer row in place. -/
theorem answer_upsert_unique_witness :
    (answer_test_question exUpsertDB 1
        ⟨1, 5, CorrectOptionEnum.B⟩ 7).1.test_answers.countP (testAnswerKey 1 5) ≤ 1
    ∧ (answer_test_question exUpsertDB 1
        ⟨1, 5, CorrectOptionEnum.B⟩ 7).1.test_answers.find? (testAnswerKey 1 5)
      = some ⟨1, 5, CorrectOptionEnum.B, true, 7⟩ := by
  constructor
  · exact (answer_upsert_unique exUpsertDB 1 ⟨1, 5, CorrectOptionEnum.B⟩ 7
      (answer_test_question exUpsertDB 1 ⟨1, 5, CorrectOptionEnum.B⟩ 7).1
      (answer_test_question exUpsertDB 1 ⟨1, 5, CorrectOptionEnum.B⟩ 7).2
      rfl).1 1 5 (by decide)
  · have h := ((answer_upsert_unique exUpsertDB 1 ⟨1, 5, CorrectOptionEnum.B⟩ 7
      (answer_test_question exUpsertDB 1 ⟨1, 5, CorrectOptionEnum.B⟩ 7).1
      (answer_test_question exUpsertDB 1 ⟨1, 5, CorrectOptionEnum.B⟩ 7).2
      rfl).2 ⟨true, CorrectOptionEnum.B, "expl"⟩ (by decide)).1
    simpa using h

/-! ## Claim C10: a flashcard's correct status is never revoked -/

theorem status_mono_updateFirst (p : FlashcardSessionQuestion → Bool)
    (f : FlashcardSessionQuestion → FlashcardSessionQuestion)
    (hf : ∀ x, (f x).status = x.status ∨ (f x).status = FlashcardStatus.correct)
    (l : List FlashcardSessionQuestion) (i : Nat)
    (h : (l[i]?).map (·.status) = some FlashcardStatus.correct) :
    ((updateFirst p f l)[i]?).map (·.status) = some FlashcardStatus.correct := by
  rcases getElem?_updateFirst p f l i with heq | ⟨x, hx, hpx, hfx⟩
  · rw [heq]; exact h
  · rw [hfx]
    rw [hx] at h
    simp only [Option.map_some', Option.some.injEq] at h ⊢
    rcases hf x with h1 | h1
    · rw [h1]; exact h
    · exact h1

/-- Claim C10 (implicit): `answer_flashcard` never moves a question from
`correct` back to `pending`: every row that was `correct` stays `correct`,
the table keeps its rows, and the number of pending rows of any session
never increases. -/
theorem flashcard_status_monotone (db : FlashDB) (user_id : Nat)
    (req : FlashcardAnswerRequest) (now : Nat) (db' : FlashDB)
    (r : Except ApiError FlashcardAnswerResult)
    (heq : answer_flashcard db user_id req now = (db', r)) :
    (∀ i : Nat,
      (db.session_questions[i]?).map (·.status) = some FlashcardStatus.correct →
      (db'.session_questions[i]?).map (·.status) = some FlashcardStatus.correct)
    ∧ db'.session_questions.length = db.session_questions.length
    ∧ (∀ sid : Nat,
        db'.session_questions.countP (sessionPending sid)
          ≤ db.session_questions.countP (sessionPending sid)) := by
  unfold answer_flashcard at heq
  cases hsess : db.sessions.find? (sessionKey req.session_id user_id) with
  | none =>
    simp only [hsess] at heq
    rw [Prod.mk.injEq] at heq
    obtain ⟨h1, h2⟩ := heq
    subst h1
    exact ⟨fun i h => h, rfl, fun sid => le_refl _⟩
  | some session =>
    simp only [hsess] at heq
    by_cases hcomp : session.completed
    · simp only [hcomp, if_true] at heq
      rw [Prod.mk.injEq] at heq
      obtain ⟨h1, h2⟩ := heq
      subst h1
      exact ⟨fun i h => h, rfl, fun sid => le_refl _⟩
    · simp only [hcomp, if_false, Bool.false_eq_true] at heq
      cases hsq : db.session_questions.find? (sqKey req.session_id req.question_id) with
      | none =>
        simp only [hsq] at heq
        rw [Prod.mk.injEq] at heq
        obtain ⟨h1, h2⟩ := heq
        subst h1
        exact ⟨fun i h => h, rfl, fun sid => le_refl _⟩
      | some sq =>
        simp only [hsq] at heq
        cases hqf : db.questions.find? (fun q => q.id == req.question_id) with
        | none =>
          simp only [hqf] at heq
          rw [Prod.mk.injEq] at heq
          obtain ⟨h1, h2⟩ := heq
          subst h1
          exact ⟨fun i h => h, rfl, fun sid => le_refl _⟩
        | some question =>
          simp only [hqf] at heq
          by_cases hic : (req.selected_option == question.correct_option) = true
          · simp only [hic, if_true] at heq
            rw [Prod.mk.injEq] at heq
            obtain ⟨h1, h2⟩ := heq
            subst h1
            refine ⟨?_, ?_, ?_⟩
            · intro i h
              dsimp only
              apply status_mono_updateFirst
              · intro x; exact Or.inr rfl
              · apply status_mono_updateFirst
                · intro x; exact Or.inl rfl
                · exact h
            · dsimp only
              rw [length_updateFirst, length_updateFirst]
            · intro sid
              dsimp only
              have h1 : (updateFirst (sqKey req.session_id req.question_id)
                  (fun s => { s with last_attempted_at := some now })
                  db.session_questions).countP (sessionPending sid)
                  ≤ db.session_questions.countP (sessionPending sid) := by
                apply countP_updateFirst_le
                intro x hx
                exact hx
              refine le_trans ?_ h1
              apply countP_updateFirst_le
              intro x hx
              exact absurd hx (by simp [sessionPending])
          · simp only [hic, if_false, Bool.false_eq_true] at heq
            rw [Prod.mk.injEq] at heq
            obtain ⟨h1, h2⟩ := heq
            subst h1
            refine ⟨?_, ?_, ?_⟩
            · intro i h
              dsimp only
              apply status_mono_updateFirst
              · intro x; exact Or.inl rfl
              · apply status_mono_updateFirst
                · intro x; exact Or.inl rfl
                · exact h
            · dsimp only
              rw [length_updateFirst, length_updateFirst]
            · intro sid
              dsimp only
              have h1 : (updateFirst (sqKey req.session_id req.question_id)
                  (fun s => { s with last_attempted_at := some now })
                  db.session_questions).countP (sessionPending sid)
                  ≤ db.session_questions.countP (sessionPending sid) := by
                apply countP_updateFirst_le
                intro x hx
                exact hx
              refine le_trans ?_ h1
              apply countP_updateFirst_le
              intro x hx
              exact hx

/-- Witness for C10: in a two-card session where card 5 is already
`correct`, wrongly re-answering card 5 leaves it `correct` and does not
increase the pending count. -/
theorem flashcard_status_monotone_witness :
    (((answer_flashcard exFlashDB
        1 ⟨1, 5, CorrectOptionEnum.A⟩ 9).1.session_questions[0]?).map (·.status)
      = some FlashcardStatus.correct)
    ∧ (answer_flashcard exFlashDB
        1 ⟨1, 5, CorrectOptionEnum.A⟩ 9).1.session_questions.countP (sessionPending 1)
      ≤ 1 := by
  constructor
  · exact (flashcard_status_monotone exFlashDB 1 ⟨1, 5, CorrectOptionEnum.A⟩ 9
      (answer_flashcard exFlashDB 1 ⟨1, 5, CorrectOptionEnum.A⟩ 9).1
      (answer_flashcard exFlashDB 1 ⟨1, 5, CorrectOptionEnum.A⟩ 9).2 rfl).1 0
      (by decide)
  · have h := (flashcard_status_monotone exFlashDB 1 ⟨1, 5, CorrectOptionEnum.A⟩ 9
      (answer_flashcard exFlashDB 1 ⟨1, 5, CorrectOptionEnum.A⟩ 9).1
      (answer_flashcard exFlashDB 1 ⟨1, 5, CorrectOptionEnum.A⟩ 9).2 rfl).2.2 1
    have h2 : exFlashDB.session_questions.countP (sessionPending 1) = 1 := by decide
    rw [h2] at h
    exact h

/-! ## Sorting lemmas -/

theorem mem_insertAsc (key : α → Nat) (x : α) :
    ∀ (l : List α) (y : α), y ∈ insertAsc key x l ↔ y = x ∨ y ∈ l := by
  intro l
  induction l with
  | nil => intro y; simp [insertAsc]
  | cons z zs ih =>
    intro y
    by_cases h : key z ≤ key x
    · simp only [insertAsc, if_pos h, List.mem_cons, ih]
      tauto
    · simp only [insertAsc, if_neg h, List.mem_cons]

theorem mem_sortAsc (key : α → Nat) :
    ∀ (l : List α) (y : α), y ∈ sortAsc key l ↔ y ∈ l := by
  intro l
  induction l with
  | nil => intro y; simp [sortAsc]
  | cons z zs ih =>
    intro y
    simp only [sortAsc, mem_insertAsc, List.mem_cons, ih]

theorem length_insertAsc (key : α → Nat) (x : α) :
    ∀ l : List α, (insertAsc key x l).length = l.length + 1 := by
  intro l
  induction l with
  | nil => rfl
  | cons z zs ih =>
    by_cases h : key z ≤ key x
    · simp only [insertAsc, if_pos h, List.length_cons, ih]
    · simp only [insertAsc, if_neg h, List.length_cons]

theorem length_sortAsc (key : α → Nat) :
    ∀ l : List α, (sortAsc key l).length = l.length := by
  intro l
  induction l with
  | nil => rfl
  | cons z zs ih =>
    simp only [sortAsc, length_insertAsc, List.length_cons, ih]

theorem pairwise_insertAsc (key : α → Nat) (x : α) :
    ∀ l : List α, l.Pairwise (fun a b => key a ≤ key b) →
      (insertAsc key x l).Pairwise (fun a b => key a ≤ key b) := by
  intro l
  induction l with
  | nil => intro _; simp [insertAsc]
  | cons z zs ih =>
    intro h
    obtain ⟨hz, hzs⟩ := List.pairwise_cons.mp h
    by_cases hle : key z ≤ key x
    · simp only [insertAsc, if_pos hle]
      refine List.pairwise_cons.mpr ⟨?_, ih hzs⟩
      intro y hy
      rcases (mem_insertAsc key x zs y).mp hy with rfl | hy'
      · exact hle
      · exact hz y hy'
    · simp only [insertAsc, if_neg hle]
      refine List.pairwise_cons.mpr ⟨?_, h⟩
      intro y hy
      have hxz : key x ≤ key z := le_of_not_le hle
      rcases List.mem_cons.mp hy with rfl | hy'
      · exact hxz
      · exact le_trans hxz (hz y hy')

theorem sortAsc_pairwise (key : α → Nat) :
    ∀ l : List α, (sortAsc key l).Pairwise (fun a b => key a ≤ key b) := by
  intro l
  induction l with
  | nil => simp [sortAsc]
  | cons z zs ih => exact pairwise_insertAsc key z (sortAsc key zs) ih

/-! ## Claim C5: flashcard requeue policy -/

theorem filter_map_updateFirst (p : α → Bool) (f : α → α) (g : α → β) (q : α → Bool)
    (hg : ∀ x, p x = true → g (f x) = g x) (hq : ∀ x, p x = true → q (f x) = q x) :
    ∀ l : List α, ((updateFirst p f l).filter q).map g = (l.filter q).map g := by
  intro l
  induction l with
  | nil => rfl
  | cons x xs ih =>
    cases hx : p x
    · rw [updateFirst_cons_neg p f xs hx]
      cases hqx : q x
      · rw [List.filter_cons_of_neg (by simp [hqx]), List.filter_cons_of_neg (by simp [hqx])]
        exact ih
      · rw [List.filter_cons_of_pos (by simp [hqx]), List.filter_cons_of_pos (by simp [hqx])]
        simp only [List.map_cons, ih]
    · rw [updateFirst_cons_pos p f xs hx]
      cases hqx : q x
      · rw [List.filter_cons_of_neg (by simp [hq x hx, hqx]),
          List.filter_cons_of_neg (by simp [hqx])]
      · rw [List.filter_cons_of_pos (by simp [hq x hx, hqx]),
          List.filter_cons_of_pos (by simp [hqx])]
        simp only [List.map_cons, hg x hx]

theorem sqKey_preserved (session_id question_id : Nat)
    (f : FlashcardSessionQuestion → FlashcardSessionQuestion)
    (hf : ∀ x, (f x).session_id = x.session_id ∧ (f x).question_id = x.question_id) :
    ∀ x, sqKey session_id question_id (f x) = sqKey session_id question_id x := by
  intro x
  unfold sqKey
  rw [(hf x).1, (hf x).2]

/-- Claim C5: in a flashcard session, a wrong answer keeps the question's
status and pushes its order key to `max(existing order keys) + 1`, a
correct answer sets its status to `correct`; the session's completion flag
is set exactly when no pending row remains, and `get_next_flashcard`
returns a pending question whose order key is minimal among the pending
rows. -/
theorem flashcard_requeue_policy :
    (∀ (db : FlashDB) (user_id : Nat) (req : FlashcardAnswerRequest) (now : Nat)
       (db' : FlashDB) (r : Except ApiError FlashcardAnswerResult)
       (sq : FlashcardSessionQuestion),
      db.session_questions.find? (sqKey req.session_id req.question_id) = some sq →
      answer_flashcard db user_id req now = (db', r) →
      ∀ res, r = .ok res →
        (res.correct = false →
          ∃ m, ((db.session_questions.filter
                (fun s => s.session_id == req.session_id)).map (·.shuffle_order)).max?
              = some m
            ∧ db'.session_questions.find? (sqKey req.session_id req.question_id)
              = some { sq with last_attempted_at := some now, shuffle_order := m + 1 })
        ∧ (res.correct = true →
            db'.session_questions.find? (sqKey req.session_id req.question_id)
              = some
                { sq with last_attempted_at := some now, status := FlashcardStatus.correct })
        ∧ (res.completed = true
            ↔ db'.session_questions.countP (sessionPending req.session_id) = 0)
        ∧ (db'.sessions.find? (sessionKey req.session_id user_id)).map (·.completed)
            = some res.completed)
    ∧ (∀ (db : FlashDB) (user_id session_id : Nat) (db2 : FlashDB)
         (nq : FlashcardNextQuestion),
        get_next_flashcard db user_id session_id = (db2, .ok nq) →
        nq.completed = false →
        ∃ sqm, sqm ∈ db.session_questions ∧ sessionPending session_id sqm = true
          ∧ nq.question.map (·.id) = some sqm.question_id
          ∧ ∀ y ∈ db.session_questions, sessionPending session_id y = true →
              sqm.shuffle_order ≤ y.shuffle_order) := by
  constructor
  · intro db user_id req now db' r sq hsq heq res hres
    unfold answer_flashcard at heq
    cases hsess : db.sessions.find? (sessionKey req.session_id user_id) with
    | none =>
      simp only [hsess] at heq
      rw [Prod.mk.injEq] at heq
      rw [← heq.2] at hres
      simp at hres
    | some session =>
      simp only [hsess] at heq
      by_cases hcomp : session.completed
      · simp only [hcomp, if_true] at heq
        rw [Prod.mk.injEq] at heq
        rw [← heq.2] at hres
        simp at hres
      · simp only [hcomp, if_false, Bool.false_eq_true] at heq
        simp only [hsq] at heq
        cases hqf : db.questions.find? (fun q => q.id == req.question_id) with
        | none =>
          simp only [hqf] at heq
          rw [Prod.mk.injEq] at heq
          rw [← heq.2] at hres
          simp at hres
        | some question =>
          simp only [hqf] at heq
          have hself1 : ∀ x : FlashcardSessionQuestion,
              sqKey req.session_id req.question_id x = true →
              sqKey req.session_id req.question_id
                { x with last_attempted_at := some now } = true := fun _ hx => hx
          have hselfc : ∀ x : FlashcardSessionQuestion,
              sqKey req.session_id req.question_id x = true →
              sqKey req.session_id req.question_id
                { x with status := FlashcardStatus.correct } = true := fun _ hx => hx
          have hselfsess : ∀ x : FlashcardSession,
              sessionKey req.session_id user_id x = true →
              sessionKey req.session_id user_id { x with completed := true } = true :=
            fun _ hx => hx
          by_cases hic : (req.selected_option == question.correct_option) = true
          · simp only [hic, if_true] at heq
            rw [Prod.mk.injEq] at heq
            obtain ⟨h1, h2⟩ := heq
            subst h1
            rw [← h2] at hres
            obtain rfl : (FlashcardAnswerResult.mk true question.correct_option
                question.explanation
                ((updateFirst (sqKey req.session_id req.question_id)
                    (fun s => { s with status := FlashcardStatus.correct })
                    (updateFirst (sqKey req.session_id req.question_id)
                      (fun s => { s with last_attempted_at := some now })
                      db.session_questions)).countP (sessionPending req.session_id))
                (((updateFirst (sqKey req.session_id req.question_id)
                    (fun s => { s with status := FlashcardStatus.correct })
                    (updateFirst (sqKey req.session_id req.question_id)
                      (fun s => { s with last_attempted_at := some now })
                      db.session_questions)).countP (sessionPending req.session_id))
                  == 0)) = res := by
              simpa [hic] using hres
            refine ⟨fun hfc => by simp at hfc, fun _ => ?_, ?_, ?_⟩
            · dsimp only
              rw [find?_updateFirst_self _ _ hselfc,
                find?_updateFirst_self _ _ hself1, hsq]
              rfl
            · dsimp only
              simp [Nat.beq_eq_true_eq]
            · dsimp only
              cases hpc : ((updateFirst (sqKey req.session_id req.question_id)
                  (fun s => { s with status := FlashcardStatus.correct })
                  (updateFirst (sqKey req.session_id req.question_id)
                    (fun s => { s with last_attempted_at := some now })
                    db.session_questions)).countP (sessionPending req.session_id)) == 0
              · simp only [hpc, if_false, Bool.false_eq_true]
                rw [hsess]
                simp [Bool.not_eq_true] at hcomp
                simp [hcomp]
              · simp only [hpc, if_true]
                rw [find?_updateFirst_self _ _ hselfsess, hsess]
                rfl
          · simp only [hic, if_false, Bool.false_eq_true] at heq
            rw [Prod.mk.injEq] at heq
            obtain ⟨h1, h2⟩ := heq
            subst h1
            rw [← h2] at hres
            have hmemsq : sq ∈ db.session_questions := List.mem_of_find?_eq_some hsq
            have hsqsess : sq.session_id = req.session_id := by
              have := List.find?_some hsq
              unfold sqKey at this
              simp only [Bool.and_eq_true, beq_iff_eq] at this
              exact this.1
            have hfm := filter_map_updateFirst
              (sqKey req.session_id req.question_id)
              (fun s => { s with last_attempted_at := some now })
              (·.shuffle_order) (fun s => s.session_id == req.session_id)
              (fun x _ => rfl) (fun x _ => rfl) db.session_questions
            cases hmax : ((db.session_questions.filter
                (fun s => s.session_id == req.session_id)).map (·.shuffle_order)).max? with
            | none =>
              exfalso
              have : sq.shuffle_order ∈ ((db.session_questions.filter
                  (fun s => s.session_id == req.session_id)).map (·.shuffle_order)) := by
                exact List.mem_map_of_mem _
                  (List.mem_filter.mpr ⟨hmemsq, by simp [hsqsess]⟩)
              rw [List.max?_eq_none_iff] at hmax
              rw [hmax] at this
              simp at this
            | some m =>
              rw [hfm, hmax] at hres
              obtain rfl : (FlashcardAnswerResult.mk false question.correct_option
                  question.explanation
                  ((updateFirst (sqKey req.session_id req.question_id)
                      (fun s => { s with shuffle_order := m + 1 })
                      (updateFirst (sqKey req.session_id req.question_id)
                        (fun s => { s with last_attempted_at := some now })
                        db.session_questions)).countP (sessionPending req.session_id))
                  (((updateFirst (sqKey req.session_id req.question_id)
                      (fun s => { s with shuffle_order := m + 1 })
                      (updateFirst (sqKey req.session_id req.question_id)
                        (fun s => { s with last_attempted_at := some now })
                        db.session_questions)).countP (sessionPending req.session_id))
                    == 0)) = res := by
                simpa [hic] using hres
              have hselfo : ∀ x : FlashcardSessionQuestion,
                  sqKey req.session_id req.question_id x = true →
                  sqKey req.session_id req.question_id
                    { x with shuffle_order := m + 1 } = true := fun _ hx => hx
              refine ⟨fun _ => ⟨m, rfl, ?_⟩, fun htc => by simp at htc, ?_, ?_⟩
              · dsimp only
                rw [hfm, hmax]
                rw [find?_updateFirst_self _ _ hselfo,
                  find?_updateFirst_self _ _ hself1, hsq]
                rfl
              · dsimp only
                rw [hfm, hmax]
                simp [Nat.beq_eq_true_eq]
              · dsimp only
                rw [hfm, hmax]
                cases hpc : ((updateFirst (sqKey req.session_id req.question_id)
                    (fun s => { s with shuffle_order := m + 1 })
                    (updateFirst (sqKey req.session_id req.question_id)
                      (fun s => { s with last_attempted_at := some now })
                      db.session_questions)).countP (sessionPending req.session_id)) == 0
                · simp only [hpc, if_false, Bool.false_eq_true]
                  rw [hsess]
                  simp [Bool.not_eq_true] at hcomp
                  simp [hcomp]
                · simp only [hpc, if_true]
                  rw [find?_updateFirst_self _ _ hselfsess, hsess]
                  rfl
  · intro db user_id session_id db2 nq heq hnc
    unfold get_next_flashcard at heq
    cases hsess : db.sessions.find? (sessionKey session_id user_id) with
    | none =>
      simp only [hsess] at heq
      rw [Prod.mk.injEq] at heq
      simp at heq
    | some session =>
      simp only [hsess] at heq
      by_cases hcomp : session.completed
      · simp only [hcomp, if_true] at heq
        rw [Prod.mk.injEq] at heq
        obtain ⟨h1, h2⟩ := heq
        injection h2 with h3
        subst h3
        simp at hnc
      · simp only [hcomp, if_false, Bool.false_eq_true] at heq
        cases hsort : sortAsc (·.shuffle_order)
            (db.session_questions.filter (sessionPending session_id)) with
        | nil =>
          simp only [hsort] at heq
          rw [Prod.mk.injEq] at heq
          obtain ⟨h1, h2⟩ := heq
          injection h2 with h3
          subst h3
          simp at hnc
        | cons sqh rest =>
          simp only [hsort] at heq
          cases hqf : db.questions.find? (fun q => q.id == sqh.question_id) with
          | none =>
            simp only [hqf] at heq
            rw [Prod.mk.injEq] at heq
            simp at heq
          | some q =>
            simp only [hqf] at heq
            rw [Prod.mk.injEq] at heq
            obtain ⟨h1, h2⟩ := heq
            injection h2 with h3
            subst h3
            have hqid : q.id = sqh.question_id := by
              have := List.find?_some hqf
              simpa using this
            have hsqh_mem : sqh ∈ db.session_questions.filter (sessionPending session_id) := by
              have : sqh ∈ sortAsc (·.shuffle_order)
                  (db.session_questions.filter (sessionPending session_id)) := by
                rw [hsort]; exact List.mem_cons_self _ _
              exact (mem_sortAsc _ _ _).mp this
            refine ⟨sqh, (List.mem_filter.mp hsqh_mem).1,
              (List.mem_filter.mp hsqh_mem).2, ?_, ?_⟩
            · simp [briefOf, hqid]
            · intro y hy hpy
              have hymem : y ∈ sortAsc (·.shuffle_order)
                  (db.session_questions.filter (sessionPending session_id)) :=
                (mem_sortAsc _ _ _).mpr (List.mem_filter.mpr ⟨hy, hpy⟩)
              rw [hsort] at hymem
              rcases List.mem_cons.mp hymem with rfl | hyr
              · exact le_refl _
              · have hpw := sortAsc_pairwise (·.shuffle_order)
                  (db.session_questions.filter (sessionPending session_id))
                rw [hsort] at hpw
                exact (List.pairwise_cons.mp hpw).1 y hyr

/-- Witness for C5: in a 3-card session, wrongly answering card 2 requeues
it with order key `max + 1 = 3`, and the next card served is card 1, the
pending card with the lowest order key. -/
theorem flashcard_requeue_policy_witness :
    (∃ m, ((exFlash3.session_questions.filter
          (fun s => s.session_id == (1 : Nat))).map (·.shuffle_order)).max? = some m
      ∧ (answer_flashcard exFlash3 1 ⟨1, 2, CorrectOptionEnum.A⟩ 5).1.session_questions.find?
          (sqKey 1 2)
        = some { session_id := 1, question_id := 2, status := FlashcardStatus.pending,
                 shuffle_order := m + 1, last_attempted_at := some 5 })
    ∧ ∃ sqm, sqm ∈ exFlash3.session_questions ∧ sessionPending 1 sqm = true
        ∧ (some (briefOf exFq1) : Option QuestionBrief).map (·.id) = some sqm.question_id
        ∧ ∀ y ∈ exFlash3.session_questions, sessionPending 1 y = true →
            sqm.shuffle_order ≤ y.shuffle_order := by
  constructor
  · exact (flashcard_requeue_policy.1 exFlash3 1 ⟨1, 2, CorrectOptionEnum.A⟩ 5
      (answer_flashcard exFlash3 1 ⟨1, 2, CorrectOptionEnum.A⟩ 5).1
      (answer_flashcard exFlash3 1 ⟨1, 2, CorrectOptionEnum.A⟩ 5).2
      ⟨1, 2, FlashcardStatus.pending, 1, none⟩ (by decide) rfl
      ⟨false, CorrectOptionEnum.B, "expl", 3, false⟩ (by decide)).1 rfl
  · exact flashcard_requeue_policy.2 exFlash3 1 1
      (get_next_flashcard exFlash3 1 1).1 ⟨1, some (briefOf exFq1), 3, false⟩
      (by decide) rfl

/-! ## Claim C7: at most one daily question set per date -/

theorem getOrCreate_existing (db : DailyDB) (d : String) (dt : DailyTest)
    (h : db.daily_tests.find? (fun t => t.test_date == d) = some dt) :
    _get_or_create_daily_test db d = .ok (db, dt) := by
  unfold _get_or_create_daily_test
  rw [h]

theorem getOrCreate_created (db : DailyDB) (d : String) (db' : DailyDB) (dt : DailyTest)
    (hn : db.daily_tests.find? (fun t => t.test_date == d) = none)
    (h : _get_or_create_daily_test db d = .ok (db', dt)) :
    dt.test_date = d ∧ dt.id = db.next_daily_test_id
    ∧ db'.daily_tests = db.daily_tests ++ [dt] := by
  unfold _get_or_create_daily_test at h
  rw [hn] at h
  by_cases hl : (dailyDraw db.questions).length < 1
  · rw [if_pos hl] at h
    simp at h
  · rw [if_neg hl] at h
    simp only [Except.ok.injEq, Prod.mk.injEq] at h
    obtain ⟨h1, h2⟩ := h
    subst h2
    refine ⟨rfl, rfl, ?_⟩
    rw [← h1]

theorem getOrCreate_find (db : DailyDB) (d : String) (db' : DailyDB) (dt : DailyTest)
    (h : _get_or_create_daily_test db d = .ok (db', dt)) :
    db'.daily_tests.find? (fun t => t.test_date == d) = some dt := by
  unfold _get_or_create_daily_test at h
  cases hfd : db.daily_tests.find? (fun t => t.test_date == d) with
  | some existing =>
    rw [hfd] at h
    simp only [Except.ok.injEq, Prod.mk.injEq] at h
    obtain ⟨h1, h2⟩ := h
    subst h2
    rw [← h1]
    exact hfd
  | none =>
    rw [hfd] at h
    by_cases hl : (dailyDraw db.questions).length < 1
    · rw [if_pos hl] at h
      simp at h
    · rw [if_neg hl] at h
      simp only [Except.ok.injEq, Prod.mk.injEq] at h
      obtain ⟨h1, h2⟩ := h
      subst h2
      rw [← h1]
      dsimp only
      rw [List.find?_append, hfd, Option.none_or]
      rw [List.find?_cons_of_pos _ (by simp)]

theorem start_daily_of_existing (db : DailyDB) (u : Nat) (d : String) (dt : DailyTest)
    (hf : db.daily_tests.find? (fun t => t.test_date == d) = some dt)
    (briefs : List QuestionBrief)
    (hb : questionBriefs db.questions
        ((sortAsc (·.question_order) (db.daily_test_questions.filter
          (fun r => r.daily_test_id == dt.id))).map (·.question_id)) = some briefs) :
    ∃ db2 attempt_id, start_daily_test db u d
      = .ok (db2, ⟨dt.id, attempt_id, d, briefs⟩) := by
  unfold start_daily_test
  rw [getOrCreate_existing db d dt hf]
  cases hat : db.daily_attempts.find?
      (fun a => a.daily_test_id == dt.id && a.user_id == u) with
  | some a =>
    simp only [hat]
    rw [hb]
    exact ⟨db, a.id, rfl⟩
  | none =>
    simp only [hat]
    rw [hb]
    exact ⟨_, db.next_attempt_id, rfl⟩

theorem start_questions_spec (db : DailyDB) (u : Nat) (d : String) (db1 : DailyDB)
    (out1 : DailyTestOut) (h : start_daily_test db u d = .ok (db1, out1)) :
    ∃ dt briefs, db1.daily_tests.find? (fun t => t.test_date == d) = some dt
      ∧ out1.questions = briefs
      ∧ questionBriefs db1.questions
          ((sortAsc (·.question_order) (db1.daily_test_questions.filter
            (fun r => r.daily_test_id == dt.id))).map (·.question_id)) = some briefs := by
  unfold start_daily_test at h
  cases hg : _get_or_create_daily_test db d with
  | error e => rw [hg] at h; simp at h
  | ok pair =>
    obtain ⟨dbg, dt⟩ := pair
    rw [hg] at h
    have hgf := getOrCreate_find db d dbg dt hg
    dsimp only at h
    cases hat : dbg.daily_attempts.find?
        (fun a => a.daily_test_id == dt.id && a.user_id == u) with
    | some a1 =>
      simp only [hat] at h
      cases hb : questionBriefs dbg.questions
          ((sortAsc (·.question_order)
            (dbg.daily_test_questions.filter
              (fun r => r.daily_test_id == dt.id))).map (·.question_id)) with
      | none => rw [hb] at h; simp at h
      | some briefs =>
        rw [hb] at h
        simp only [Except.ok.injEq, Prod.mk.injEq] at h
        obtain ⟨hdb1, hout1⟩ := h
        subst hdb1
        exact ⟨dt, briefs, hgf, by rw [← hout1], hb⟩
    | none =>
      simp only [hat] at h
      cases hb : questionBriefs dbg.questions
          ((sortAsc (·.question_order)
            (dbg.daily_test_questions.filter
              (fun r => r.daily_test_id == dt.id))).map (·.question_id)) with
      | none => rw [hb] at h; simp at h
      | some briefs =>
        rw [hb] at h
        simp only [Except.ok.injEq, Prod.mk.injEq] at h
        obtain ⟨hdb1, hout1⟩ := h
        refine ⟨dt, briefs, ?_, by rw [← hout1], ?_⟩
        · rw [← hdb1]
          exact hgf
        · rw [← hdb1]
          exact hb

/-- Claim C7: the daily question set is created at most once per calendar
date: a start that finds an existing set adopts it without touching the
store's daily tests, date-uniqueness of the stored sets is preserved, two
users starting on the same date get the same ordered question list, and a
date with no stored set gets a freshly generated one appended. -/
theorem daily_test_idempotent_per_date :
    (∀ (db : DailyDB) (d : String) (dt : DailyTest),
      db.daily_tests.find? (fun t => t.test_date == d) = some dt →
      _get_or_create_daily_test db d = .ok (db, dt))
    ∧ (∀ (db : DailyDB) (d : String) (db' : DailyDB) (dt : DailyTest),
      (db.daily_tests.map (·.test_date)).Nodup →
      _get_or_create_daily_test db d = .ok (db', dt) →
      (db'.daily_tests.map (·.test_date)).Nodup)
    ∧ (∀ (db : DailyDB) (u1 u2 : Nat) (d : String) (db1 : DailyDB)
         (out1 : DailyTestOut),
      start_daily_test db u1 d = .ok (db1, out1) →
      ∃ db2 out2, start_daily_test db1 u2 d = .ok (db2, out2)
        ∧ out2.questions = out1.questions)
    ∧ (∀ (db : DailyDB) (d : String) (db' : DailyDB) (dt : DailyTest),
      db.daily_tests.find? (fun t => t.test_date == d) = none →
      _get_or_create_daily_test db d = .ok (db', dt) →
      dt.test_date = d ∧ db'.daily_tests = db.daily_tests ++ [dt]) := by
  refine ⟨getOrCreate_existing, ?_, ?_, ?_⟩
  · intro db d db' dt hnd h
    cases hfd : db.daily_tests.find? (fun t => t.test_date == d) with
    | some existing =>
      have h2 := getOrCreate_existing db d existing hfd
      rw [h2] at h
      simp only [Except.ok.injEq, Prod.mk.injEq] at h
      rw [← h.1]
      exact hnd
    | none =>
      obtain ⟨hdate, _, happ⟩ := getOrCreate_created db d db' dt hfd h
      rw [happ, List.map_append]
      rw [List.nodup_append]
      refine ⟨hnd, by simp, ?_⟩
      intro x hx
      simp only [List.map_cons, List.map_nil, List.mem_singleton]
      intro hx2
      subst hx2
      rw [hdate] at hx
      obtain ⟨t, ht, hteq⟩ := List.mem_map.mp hx
      have := List.find?_eq_none.mp hfd t ht
      simp only [beq_iff_eq] at this
      exact this hteq
  · intro db u1 u2 d db1 out1 h1
    obtain ⟨dt, briefs, hfind, hq1, hb⟩ := start_questions_spec db u1 d db1 out1 h1
    obtain ⟨db2, aid, h2⟩ := start_daily_of_existing db1 u2 d dt hfind briefs hb
    exact ⟨db2, ⟨dt.id, aid, d, briefs⟩, h2, by rw [hq1]⟩
  · intro db d db' dt hn h
    obtain ⟨h1, _, h3⟩ := getOrCreate_created db d db' dt hn h
    exact ⟨h1, h3⟩

/-- Witness for C7: user 2 starting on 2026-10-12 after user 1 adopts the
same single-question set in the same order; the shared store still holds
one set for the date, which was appended by the first creation. -/
theorem daily_test_idempotent_per_date_witness :
    _get_or_create_daily_test exDailyDB1 "2026-10-12"
      = .ok (exDailyDB1, ⟨1, "2026-10-12"⟩)
    ∧ (exDailyDBg.daily_tests.map (·.test_date)).Nodup
    ∧ (∃ db2 out2, start_daily_test exDailyDB1 2 "2026-10-12" = .ok (db2, out2)
        ∧ out2.questions
          = (DailyTestOut.mk 1 1 "2026-10-12" [briefOf exQ5]).questions)
    ∧ ((⟨1, "2026-10-12"⟩ : DailyTest).test_date = "2026-10-12"
        ∧ exDailyDBg.daily_tests = exDailyDB.daily_tests ++ [⟨1, "2026-10-12"⟩]) := by
  refine ⟨?_, ?_, ?_, ?_⟩
  · exact daily_test_idempotent_per_date.1 exDailyDB1 "2026-10-12"
      ⟨1, "2026-10-12"⟩ (by decide)
  · exact daily_test_idempotent_per_date.2.1 exDailyDB "2026-10-12" exDailyDBg
      ⟨1, "2026-10-12"⟩ (by decide) (by decide)
  · exact daily_test_idempotent_per_date.2.2.1 exDailyDB 1 2 "2026-10-12"
      exDailyDB1 ⟨1, 1, "2026-10-12", [briefOf exQ5]⟩ (by decide)
  · exact daily_test_idempotent_per_date.2.2.2 exDailyDB "2026-10-12" exDailyDBg
      ⟨1, "2026-10-12"⟩ (by decide) (by decide)

/-! ## Claim C8: deck chapter targets sum to exactly the deck size -/

/-- Claim C8: `_calculate_chapter_targets` allocates
`floor(DECK_SIZE * weight)` to every chapter except the last of the
descending-weight order, hands the lowest-weight chapter the remaining
difference, and the totals sum to exactly `DECK_SIZE = 20` for the fixed
7-chapter weight table. -/
theorem chapter_targets_sum_to_deck_size :
    ((_calculate_chapter_targets.map (·.2)).sum = DECK_SIZE)
    ∧ _calculate_chapter_targets
      = [("Pharmacology", 6), ("Pharmaceutics", 4), ("Pharmaceutical Chemistry", 4),
         ("Microbiology", 2), ("Pharmacognosy", 2), ("Drug Laws", 1),
         ("Clinical Pharmacy", 1)]
    ∧ (∀ e ∈ _calculate_chapter_targets.dropLast,
        e.2 = DECK_SIZE * ((CHAPTER_WEIGHTS.lookup e.1).getD 0) / 100)
    ∧ _calculate_chapter_targets.getLast?
      = some ("Clinical Pharmacy",
          DECK_SIZE - ((_calculate_chapter_targets.dropLast.map (·.2)).sum))
    ∧ sortedChapters = CHAPTER_WEIGHTS := by
  exact ⟨by decide, by decide, by decide, by decide, by decide⟩

/-- Witness for C8 at the highest-weight chapter: Pharmacology's target is
`floor(20 * 0.30) = 6`. -/
theorem chapter_targets_sum_to_deck_size_witness :
    ("Pharmacology", 6) ∈ _calculate_chapter_targets.dropLast
    ∧ (("Pharmacology", 6) : String × Nat).2
      = DECK_SIZE * ((CHAPTER_WEIGHTS.lookup "Pharmacology").getD 0) / 100 := by
  refine ⟨by decide, ?_⟩
  exact chapter_targets_sum_to_deck_size.2.2.1 ("Pharmacology", 6) (by decide)

/-! ## Claim C2: the fallback pass

Only deck generation has a fallback pass (`_fill_remaining_slots`).
`generate_full_test` and `_get_or_create_daily_test` draw each quota once
and return whatever they got; the counterexample below exhibits a bank
with 200 questions in one weighted chapter where the full test of target
100 comes back with 32 questions and no fallback occurs. -/

set_option maxRecDepth 4000 in
/-- Counterexample to C2 as stated: on a 40-question single-chapter bank,
`generate_full_test` with target 100 selects only 32 ids — far short of
the target — even though 8 unused matching questions remain, because the
full-test caller has no fallback pass. -/
theorem full_test_no_fallback_counterexample :
    Except.map List.length (generate_full_test_ids c2Bank 100) = .ok 32
    ∧ c2Bank.length = 40
    ∧ (∀ q ∈ c2Bank, q.chapter = "Pharmacology"
        ∧ (∃ w, (q.chapter, w) ∈ CHAPTER_WEIGHTAGE))
    ∧ (32 : Nat) < 100 ∧ (32 : Nat) < 40 := by
  refine ⟨by decide, by decide, ?_, by decide, by decide⟩
  intro q hq
  have hch : q.chapter = "Pharmacology" := by
    obtain ⟨i, _, rfl⟩ := List.mem_map.mp hq
    rfl
  exact ⟨hch, ⟨32, by rw [hch]; exact List.mem_cons_self _ _⟩⟩

theorem sortedChapters_eq : sortedChapters = CHAPTER_WEIGHTS := by decide

theorem mem_pull (bank : List Question) (chapter : String) (count : Nat)
    (exclude : List Nat) {x : Question}
    (h : x ∈ _pull_chapter_questions bank chapter count exclude) :
    x ∈ bank ∧ x.chapter = chapter ∧ exclude.contains x.id = false := by
  unfold _pull_chapter_questions at h
  have h2 := List.mem_of_mem_take h
  have h3 := List.mem_filter.mp h2
  obtain ⟨hb, hp⟩ := h3
  simp only [Bool.and_eq_true, beq_iff_eq, Bool.not_eq_true'] at hp
  exact ⟨hb, hp.1, hp.2⟩

theorem length_pull (bank : List Question) (chapter : String) (count : Nat)
    (exclude : List Nat) :
    (_pull_chapter_questions bank chapter count exclude).length ≤ count := by
  unfold _pull_chapter_questions
  rw [List.length_take]
  exact min_le_left _ _

/-- The invariant of the fallback chapter loop: it stops exactly at the
needed count, or it has swept up every unexcluded question of the chapters
it visited. -/
theorem deckFillLoop_spec (bank : List Question) (exclude : List Nat) :
    ∀ (cs : List (String × Nat)) (additional : List Question) (needed : Nat),
      additional.length ≤ needed →
      (additional.length ≤ (deckFillLoop bank exclude cs additional needed).length
       ∧ (deckFillLoop bank exclude cs additional needed).length ≤ needed
       ∧ (∀ x ∈ additional, x ∈ deckFillLoop bank exclude cs additional needed)
       ∧ ((deckFillLoop bank exclude cs additional needed).length = needed
          ∨ ∀ q ∈ bank, (∃ w, (q.chapter, w) ∈ cs) →
              exclude.contains q.id = false →
              q.id ∈ (deckFillLoop bank exclude cs additional needed).map (·.id))) := by
  intro cs
  induction cs with
  | nil =>
    intro additional needed hle
    refine ⟨le_refl _, hle, fun x hx => hx, Or.inr ?_⟩
    intro q _ hw _
    obtain ⟨w, hw⟩ := hw
    simp at hw
  | cons e rest ih =>
    intro additional needed hle
    by_cases hstop : needed ≤ additional.length
    · have heq : additional.length = needed := le_antisymm hle hstop
      simp only [deckFillLoop, if_pos hstop]
      exact ⟨le_refl _, hle, fun x hx => hx, Or.inl heq⟩
    · simp only [deckFillLoop, if_neg hstop]
      have hlt : additional.length < needed := lt_of_not_le hstop
      set k := needed - additional.length with hk
      set qs := _pull_chapter_questions bank e.1 k (exclude ++ additional.map (·.id))
        with hqs
      have hqslen : qs.length ≤ k := length_pull _ _ _ _
      have hlen' : (additional ++ qs).length ≤ needed := by
        rw [List.length_append]
        omega
      obtain ⟨ihl, ihu, ihmem, ihdisj⟩ := ih (additional ++ qs) needed hlen'
      refine ⟨?_, ihu, ?_, ?_⟩
      · calc additional.length ≤ (additional ++ qs).length := by
              rw [List.length_append]; omega
          _ ≤ _ := ihl
      · intro x hx
        exact ihmem x (List.mem_append_left _ hx)
      · rcases ihdisj with hdone | hexh
        · exact Or.inl hdone
        · set filtered := bank.filter (fun q => q.chapter == e.1
            && !((exclude ++ additional.map (·.id)).contains q.id)) with hfiltered
          by_cases hfull : filtered.length ≤ k
          · -- the whole filtered list was taken
            have hqs_eq : qs = filtered := by
              rw [hqs]
              unfold _pull_chapter_questions
              rw [← hfiltered]
              exact List.take_of_length_le hfull
            refine Or.inr ?_
            intro q hq hw hex
            obtain ⟨w', hw'⟩ := hw
            rcases List.mem_cons.mp hw' with hhead | htail
            · -- q's chapter is this loop iteration's chapter
              have hch : q.chapter = e.1 := by
                have := congrArg Prod.fst hhead
                simpa using this
              by_cases hmem : q.id ∈ (additional ++ qs).map (·.id)
              · obtain ⟨x, hxmem, hxid⟩ := List.mem_map.mp hmem
                exact List.mem_map.mpr ⟨x, ihmem x hxmem, hxid⟩
              · exfalso
                apply hmem
                have hq_filtered : q ∈ filtered := by
                  rw [hfiltered]
                  refine List.mem_filter.mpr ⟨hq, ?_⟩
                  simp only [Bool.and_eq_true, beq_iff_eq, Bool.not_eq_true']
                  refine ⟨hch, ?_⟩
                  have hnotex : q.id ∉ exclude := by simpa using hex
                  have hnotadd : q.id ∉ additional.map (·.id) := by
                    intro hc
                    exact hmem (by rw [List.map_append]; exact List.mem_append_left _ hc)
                  simp [hnotex, hnotadd]
                rw [List.map_append]
                refine List.mem_append_right _ ?_
                rw [hqs_eq]
                exact List.mem_map.mpr ⟨q, hq_filtered, rfl⟩
            · exact hexh q hq ⟨w', htail⟩ hex
          · -- the pull returned exactly k questions: the target is reached
            have hqs_len : qs.length = k := by
              rw [hqs]
              unfold _pull_chapter_questions
              rw [List.length_take, ← hfiltered]
              omega
            refine Or.inl ?_
            have : (additional ++ qs).length = needed := by
              rw [List.length_append, hqs_len]
              omega
            omega

/-- Claim C2 (amended): only the deck-generation caller has a fallback
pass; for it, `generate_deck` keeps drawing from the weighted chapters in
descending-weight order until the deck size is reached or every unmastered
question of the weighted chapters is exhausted. -/
theorem deck_fallback_fills_or_exhausts (bank : List Question) (mastered : List Nat) :
    (generate_deck bank mastered).length = DECK_SIZE
    ∨ (∀ q ∈ bank, (∃ w, (q.chapter, w) ∈ CHAPTER_WEIGHTS) →
        mastered.contains q.id = false →
        q.id ∈ (generate_deck bank mastered).map (·.id)) := by
  unfold generate_deck
  set sel := deckQuotaPass bank mastered _calculate_chapter_targets [] DECK_SIZE
    with hsel
  by_cases hshort : sel.length < DECK_SIZE
  · simp only [if_pos hshort]
    unfold _fill_remaining_slots
    have hne : ¬(DECK_SIZE - sel.length = 0) := by omega
    rw [if_neg hne]
    set F := deckFillLoop bank (mastered ++ sel.map (·.id)) sortedChapters []
      (DECK_SIZE - sel.length) with hF
    obtain ⟨hFge, hFle, hFmem, hdisj⟩ := deckFillLoop_spec bank
      (mastered ++ sel.map (·.id)) sortedChapters [] (DECK_SIZE - sel.length)
      (by simp)
    rw [← hF] at hFle hdisj
    have htot : (sel ++ F).length ≤ DECK_SIZE := by
      rw [List.length_append]
      omega
    have htrim : ¬(DECK_SIZE < (sel ++ F).length) := by omega
    rw [if_neg htrim]
    rcases hdisj with hdone | hexh
    · refine Or.inl ?_
      rw [List.length_append]
      omega
    · refine Or.inr ?_
      intro q hq hw hm
      by_cases hinsel : q.id ∈ sel.map (·.id)
      · rw [List.map_append]
        exact List.mem_append_left _ hinsel
      · have hex : (mastered ++ sel.map (·.id)).contains q.id = false := by
          have h1 : q.id ∉ mastered := by simpa using hm
          simp [h1, hinsel]
        have hw' : ∃ w, (q.chapter, w) ∈ sortedChapters := by
          rw [sortedChapters_eq]
          exact hw
        have := hexh q hq hw' hex
        rw [List.map_append]
        exact List.mem_append_right _ this
  · simp only [if_neg hshort]
    refine Or.inl ?_
    by_cases hover : DECK_SIZE < sel.length
    · rw [if_pos hover, List.length_take]
      omega
    · rw [if_neg hover]
      omega

/-- Witness for the amended C2: a 3-question Pharmacology bank cannot fill
a 20-card deck, so the fallback exhausts the bank and every question lands
in the deck. -/
theorem deck_fallback_witness :
    exFq2.id ∈ (generate_deck [exFq1, exFq2, exFq3] []).map (·.id) := by
  rcases deck_fallback_fills_or_exhausts [exFq1, exFq2, exFq3] [] with h | h
  · exact absurd h (by decide)
  · exact h exFq2 (by decide) ⟨30, by decide⟩ (by decide)

/-! ## Claim C1: full-test scoring with negative marking -/

theorem countP_add_countP_not (p : α → Bool) :
    ∀ l : List α, l.countP p + l.countP (fun a => !(p a)) = l.length := by
  intro l
  induction l with
  | nil => rfl
  | cons x xs ih =>
    simp only [List.countP_cons]
    cases hp : p x <;> simp [hp] <;> omega

theorem countP_le_countP_of_imp (p q : α → Bool) (h : ∀ a, p a = true → q a = true) :
    ∀ l : List α, l.countP p ≤ l.countP q := by
  intro l
  induction l with
  | nil => exact le_refl _
  | cons x xs ih =>
    simp only [List.countP_cons]
    cases hp : p x
    · cases hq : q x <;> simp <;> omega
    · rw [h x hp]
      simp
      omega

theorem round2_int_quarter (k : ℤ) : round2 ((k : ℚ) / 4) = (k : ℚ) / 4 := by
  unfold round2
  have h : ((k : ℚ) / 4) * 100 = ((25 * k : ℤ) : ℚ) := by push_cast; ring
  rw [h, round_intCast]
  push_cast
  ring

theorem map_fst_updateFirst {β : Type} (p : (String × β) → Bool)
    (f : (String × β) → (String × β)) (hf : ∀ x, (f x).1 = x.1) :
    ∀ l : List (String × β), (updateFirst p f l).map Prod.fst = l.map Prod.fst := by
  intro l
  induction l with
  | nil => rfl
  | cons x xs ih =>
    cases hx : p x
    · rw [updateFirst_cons_neg p f xs hx, List.map_cons, List.map_cons, ih]
    · rw [updateFirst_cons_pos p f xs hx, List.map_cons, List.map_cons, hf x]

theorem find?_of_mem_nodup_keys {β : Type} :
    ∀ (stats : List (String × β)), (stats.map Prod.fst).Nodup →
      ∀ e ∈ stats, stats.find? (fun x => x.1 == e.1) = some e := by
  intro stats
  induction stats with
  | nil => intro _ e he; simp at he
  | cons y ys ih =>
    intro hnd e he
    rw [List.map_cons, List.nodup_cons] at hnd
    rcases List.mem_cons.mp he with rfl | he'
    · rw [List.find?_cons_of_pos _ (by simp)]
    · have hne : (y.1 == e.1) = false := by
        have : e.1 ∈ ys.map Prod.fst := List.mem_map.mpr ⟨e, he', rfl⟩
        have hy : y.1 ≠ e.1 := fun hc => hnd.1 (hc ▸ this)
        simp [hy]
      rw [List.find?_cons_of_neg _ (by simp [hne])]
      exact ih hnd.2 e he'

/-- The association list built by the `chapter_stats` loop holds, for each
chapter that occurs among the attempt questions, exactly the four
chapter-restricted counters. -/
theorem chapterStats_lookup (bank : List Question) (answers : List TestAnswer) :
    ∀ (tqs : List TestQuestion) (ch : String),
      lookupStats (chapterStats bank answers tqs) ch
        = if tqs.countP (fun tq => chapterOf bank tq == ch) = 0 then none
          else some (chCounts bank answers tqs ch) := by
  intro tqs
  induction tqs using List.reverseRecOn with
  | nil => intro ch; simp [chapterStats, lookupStats, chCounts]
  | append_singleton l tq ih =>
    intro ch
    rw [chapterStats, List.foldl_append, List.foldl_cons, List.foldl_nil]
    have hstep : List.foldl (chapterStatsStep bank answers) [] l
        = chapterStats bank answers l := rfl
    rw [hstep]
    by_cases hc : chapterOf bank tq = ch
    · subst hc
      unfold chapterStatsStep
      cases hfind : (chapterStats bank answers l).find?
          (fun e => e.1 == chapterOf bank tq) with
      | some sE =>
        simp only [hfind, Option.isSome_some, if_true]
        have hIH := ih (chapterOf bank tq)
        unfold lookupStats at hIH
        rw [hfind] at hIH
        have hcnt : ¬(l.countP (fun tq2 => chapterOf bank tq2 == chapterOf bank tq) = 0) := by
          intro h0
          rw [if_pos h0] at hIH
          simp at hIH
        rw [if_neg hcnt] at hIH
        have hsE : sE.2 = chCounts bank answers l (chapterOf bank tq) := by
          simpa using hIH
        unfold lookupStats
        rw [find?_updateFirst_self _ _ (fun x hx => by simpa using hx), hfind]
        have hcnt' : ¬((l ++ [tq]).countP
            (fun tq2 => chapterOf bank tq2 == chapterOf bank tq) = 0) := by
          rw [List.countP_append]
          simp [List.countP_cons]
        rw [if_neg hcnt']
        simp only [Option.map_some', Option.some.injEq]
        rw [hsE]
        cases hans : answerMapGet answers tq.question_id with
        | none =>
          simp [chCounts, statBump, List.countP_append, List.countP_cons, hans]
        | some a =>
          cases hic : a.is_correct
          · simp [chCounts, statBump, List.countP_append, List.countP_cons, hans, hic]
          · simp [chCounts, statBump, List.countP_append, List.countP_cons, hans, hic]
      | none =>
        simp only [hfind, Option.isSome_none, Bool.false_eq_true, if_false]
        have hIH := ih (chapterOf bank tq)
        unfold lookupStats at hIH
        rw [hfind] at hIH
        have hcnt : l.countP (fun tq2 => chapterOf bank tq2 == chapterOf bank tq) = 0 := by
          by_contra h0
          rw [if_neg h0] at hIH
          simp at hIH
        have hzc : l.countP (fun tq2 => chapterOf bank tq2 == chapterOf bank tq
            && ((answerMapGet answers tq2.question_id).map (·.is_correct)
              == some true)) = 0 := by
          have := countP_le_countP_of_imp
            (fun tq2 => chapterOf bank tq2 == chapterOf bank tq
              && ((answerMapGet answers tq2.question_id).map (·.is_correct)
                == some true))
            (fun tq2 => chapterOf bank tq2 == chapterOf bank tq)
            (fun x hx => by
              simp only [Bool.and_eq_true] at hx
              exact hx.1) l
          omega
        have hzw : l.countP (fun tq2 => chapterOf bank tq2 == chapterOf bank tq
            && ((answerMapGet answers tq2.question_id).map (·.is_correct)
              == some false)) = 0 := by
          have := countP_le_countP_of_imp
            (fun tq2 => chapterOf bank tq2 == chapterOf bank tq
              && ((answerMapGet answers tq2.question_id).map (·.is_correct)
                == some false))
            (fun tq2 => chapterOf bank tq2 == chapterOf bank tq)
            (fun x hx => by
              simp only [Bool.and_eq_true] at hx
              exact hx.1) l
          omega
        have hzu : l.countP (fun tq2 => chapterOf bank tq2 == chapterOf bank tq
            && (answerMapGet answers tq2.question_id).isNone) = 0 := by
          have := countP_le_countP_of_imp
            (fun tq2 => chapterOf bank tq2 == chapterOf bank tq
              && (answerMapGet answers tq2.question_id).isNone)
            (fun tq2 => chapterOf bank tq2 == chapterOf bank tq)
            (fun x hx => by
              simp only [Bool.and_eq_true] at hx
              exact hx.1) l
          omega
        unfold lookupStats
        rw [List.find?_append, hfind, Option.none_or]
        rw [List.find?_cons_of_pos _ (by simp)]
        have hcnt' : ¬((l ++ [tq]).countP
            (fun tq2 => chapterOf bank tq2 == chapterOf bank tq) = 0) := by
          rw [List.countP_append]
          simp [List.countP_cons]
        rw [if_neg hcnt']
        simp only [Option.map_some', Option.some.injEq]
        cases hans : answerMapGet answers tq.question_id with
        | none =>
          simp [chCounts, statBump, List.countP_append, List.countP_cons, hans, hcnt,
            hzc, hzw, hzu, ChapterStat.zero]
        | some a =>
          cases hic : a.is_correct <;>
            simp [chCounts, statBump, List.countP_append, List.countP_cons, hans, hic,
              hcnt, hzc, hzw, hzu, ChapterStat.zero]
    · have hbeq : (chapterOf bank tq == ch) = false := by simp [hc]
      unfold chapterStatsStep
      have hIH := ih ch
      have hcnt' : (l ++ [tq]).countP (fun tq2 => chapterOf bank tq2 == ch)
          = l.countP (fun tq2 => chapterOf bank tq2 == ch) := by
        rw [List.countP_append]
        simp [List.countP_cons, hbeq]
      rw [hcnt']
      have hchc : chCounts bank answers (l ++ [tq]) ch = chCounts bank answers l ch := by
        unfold chCounts
        simp [List.countP_append, List.countP_cons, hbeq]
      rw [hchc]
      rw [← hIH]
      cases hfind : (chapterStats bank answers l).find?
          (fun e => e.1 == chapterOf bank tq) with
      | some sE =>
        simp only [hfind, Option.isSome_some, if_true]
        unfold lookupStats
        rw [find?_updateFirst_other _ _ _ (fun x hx => by
          have hx1 : x.1 = chapterOf bank tq := by simpa using hx
          constructor
          · simp [hx1, hc]
          · simp [hx1, hc])]
      | none =>
        simp only [hfind, Option.isSome_none, Bool.false_eq_true, if_false]
        unfold lookupStats
        rw [List.find?_append]
        rw [List.find?_cons_of_neg _ (by simp [hc]), List.find?_nil]
        simp

theorem round2_marks (c : ℕ) :
    round2 ((c : ℚ) * MARKS_PER_CORRECT) = (c : ℚ) * MARKS_PER_CORRECT := by
  have h : ((c : ℚ) * MARKS_PER_CORRECT) = ((4 * (c : ℤ) : ℤ) : ℚ) / 4 := by
    unfold MARKS_PER_CORRECT
    push_cast
    ring
  rw [h, round2_int_quarter]

theorem round2_neg (w : ℕ) :
    round2 ((w : ℚ) * NEGATIVE_MARK_PER_WRONG) = (w : ℚ) * NEGATIVE_MARK_PER_WRONG := by
  have h : ((w : ℚ) * NEGATIVE_MARK_PER_WRONG) = (((w : ℤ)) : ℚ) / 4 := by
    unfold NEGATIVE_MARK_PER_WRONG
    push_cast
    ring
  rw [h, round2_int_quarter]

theorem round2_final (c w : ℕ) :
    round2 ((c : ℚ) * MARKS_PER_CORRECT - (w : ℚ) * NEGATIVE_MARK_PER_WRONG)
      = (c : ℚ) * MARKS_PER_CORRECT - (w : ℚ) * NEGATIVE_MARK_PER_WRONG := by
  have h : ((c : ℚ) * MARKS_PER_CORRECT - (w : ℚ) * NEGATIVE_MARK_PER_WRONG)
      = ((4 * (c : ℤ) - (w : ℤ) : ℤ) : ℚ) / 4 := by
    unfold MARKS_PER_CORRECT NEGATIVE_MARK_PER_WRONG
    push_cast
    ring
  rw [h, round2_int_quarter]

theorem answerMapGet_isSome (answers : List TestAnswer) (q : Nat) :
    (answerMapGet answers q).isSome = true ↔ q ∈ answers.map (·.question_id) := by
  unfold answerMapGet
  rw [List.getLast?_isSome]
  constructor
  · intro h
    cases hf : answers.filter (fun a => a.question_id == q) with
    | nil => exact absurd hf h
    | cons a rest =>
      have ha : a ∈ answers.filter (fun x => x.question_id == q) := by
        rw [hf]; exact List.mem_cons_self _ _
      obtain ⟨hmem, hq⟩ := List.mem_filter.mp ha
      exact List.mem_map.mpr ⟨a, hmem, by simpa using hq⟩
  · intro h hnil
    obtain ⟨a, ha, rfl⟩ := List.mem_map.mp h
    have := List.filter_eq_nil_iff.mp hnil a ha
    simp at this

theorem countP_mem_nodup (tqQ aq : List Nat) (h1 : tqQ.Nodup) (h2 : aq.Nodup)
    (hsub : ∀ x ∈ aq, x ∈ tqQ) :
    tqQ.countP (fun x => decide (x ∈ aq)) = aq.length := by
  rw [List.countP_eq_length_filter]
  have hperm : (tqQ.filter (fun x => decide (x ∈ aq))).Perm aq := by
    apply List.perm_iff_count.mpr
    intro x
    by_cases hx : x ∈ aq
    · rw [List.count_eq_one_of_mem (h1.filter _)
        (List.mem_filter.mpr ⟨hsub x hx, by simp [hx]⟩),
        List.count_eq_one_of_mem h2 hx]
    · rw [List.count_eq_zero.mpr (fun hc => hx (by
        have := List.mem_filter.mp hc
        simpa using this.2)), List.count_eq_zero.mpr hx]
  exact hperm.length_eq

theorem chapterStats_keys_nodup (bank : List Question) (answers : List TestAnswer) :
    ∀ tqs : List TestQuestion,
      ((chapterStats bank answers tqs).map Prod.fst).Nodup := by
  intro tqs
  induction tqs using List.reverseRecOn with
  | nil => simp [chapterStats]
  | append_singleton l tq ih =>
    rw [chapterStats, List.foldl_append, List.foldl_cons, List.foldl_nil]
    have hstep : List.foldl (chapterStatsStep bank answers) [] l
        = chapterStats bank answers l := rfl
    rw [hstep]
    unfold chapterStatsStep
    cases hfind : (chapterStats bank answers l).find?
        (fun e => e.1 == chapterOf bank tq) with
    | some sE =>
      simp only [hfind, Option.isSome_some, if_true]
      rw [map_fst_updateFirst (fun e => e.1 == chapterOf bank tq)
        (fun e => (e.1, statBump answers tq e.2)) (fun x => rfl)]
      exact ih
    | none =>
      simp only [hfind, Option.isSome_none, Bool.false_eq_true, if_false]
      rw [List.map_append]
      rw [List.nodup_append]
      refine ⟨ih, by simp, ?_⟩
      intro x hx
      simp only [List.map_cons, List.map_nil, List.mem_singleton]
      intro hx2
      subst hx2
      obtain ⟨e, he, hefst⟩ := List.mem_map.mp hx
      have := List.find?_eq_none.mp hfind e he
      simp only [beq_iff_eq] at this
      exact this hefst


/-- Claim C1: when `submit_test` succeeds on an uncompleted attempt whose
question ids are distinct and whose answer rows reference distinct
question ids of the attempt, the response satisfies
score = correct * 1.0, negative = wrong * 0.25, final = score - negative,
unanswered = number of attempt questions with no answer in the answer map,
and every chapter-breakdown entry carries the identical formula restricted
to that chapter together with that chapter's four counters. -/
theorem full_test_scoring_formula (db : TestDB) (user_id attempt_id now : Nat)
    (attempt : TestAttempt) (db' : TestDB) (r : Except ApiError TestSubmitResponse)
    (hatt : db.attempts.find? (testAttemptKey attempt_id user_id) = some attempt)
    (hcomp : attempt.completed = false)
    (hndT : ((db.test_questions.filter (fun tq => tq.attempt_id == attempt_id)).map
        (fun tq => tq.question_id)).Nodup)
    (hndA : ((db.test_answers.filter (fun a => a.attempt_id == attempt_id)).map
        (fun a => a.question_id)).Nodup)
    (hsub : ∀ x ∈ (db.test_answers.filter (fun a => a.attempt_id == attempt_id)).map
        (fun a => a.question_id),
        x ∈ (db.test_questions.filter (fun tq => tq.attempt_id == attempt_id)).map
          (fun tq => tq.question_id))
    (heq : submit_test db user_id attempt_id now = (db', r)) :
    ∃ resp, r = .ok resp
      ∧ resp.correct_count
          = (db.test_answers.filter (fun a => a.attempt_id == attempt_id)).countP
              (fun a => a.is_correct)
      ∧ resp.wrong_count
          = (db.test_answers.filter (fun a => a.attempt_id == attempt_id)).countP
              (fun a => !a.is_correct)
      ∧ resp.score = (resp.correct_count : ℚ) * MARKS_PER_CORRECT
      ∧ resp.negative_marks = (resp.wrong_count : ℚ) * NEGATIVE_MARK_PER_WRONG
      ∧ resp.final_score = resp.score - resp.negative_marks
      ∧ resp.unanswered_count
          = ((db.test_questions.filter (fun tq => tq.attempt_id == attempt_id)).countP
              (fun tq => (answerMapGet
                (db.test_answers.filter (fun a => a.attempt_id == attempt_id))
                tq.question_id).isNone) : Int)
      ∧ ∀ e ∈ resp.chapter_breakdown,
          e.score = (e.correct : ℚ) * MARKS_PER_CORRECT
              - (e.wrong : ℚ) * NEGATIVE_MARK_PER_WRONG
          ∧ ChapterStat.mk e.total e.correct e.wrong e.unanswered
              = chCounts db.questions
                  (db.test_answers.filter (fun a => a.attempt_id == attempt_id))
                  (db.test_questions.filter (fun tq => tq.attempt_id == attempt_id))
                  e.chapter := by
  unfold submit_test at heq
  simp only [hatt, hcomp, Bool.false_eq_true, if_false] at heq
  rw [Prod.mk.injEq] at heq
  obtain ⟨h1, h2⟩ := heq
  subst h1
  subst h2
  set ansF := db.test_answers.filter (fun a => a.attempt_id == attempt_id) with hansF
  set tqsF := db.test_questions.filter (fun tq => tq.attempt_id == attempt_id) with htqsF
  refine ⟨_, rfl, rfl, rfl, round2_marks _, round2_neg _, ?_, ?_, ?_⟩
  · show round2 ((ansF.countP (fun a => a.is_correct) : ℚ) * MARKS_PER_CORRECT
        - (ansF.countP (fun a => !a.is_correct) : ℚ) * NEGATIVE_MARK_PER_WRONG)
      = round2 ((ansF.countP (fun a => a.is_correct) : ℚ) * MARKS_PER_CORRECT)
        - round2 ((ansF.countP (fun a => !a.is_correct) : ℚ) * NEGATIVE_MARK_PER_WRONG)
    rw [round2_final, round2_marks, round2_neg]
  · show (((tqsF.map (fun tq => tq.question_id)).dedup.length : Int) - (ansF.length : Int))
      = ((tqsF.countP (fun tq => (answerMapGet ansF tq.question_id).isNone)) : Int)
    rw [List.dedup_eq_self.mpr hndT, List.length_map]
    have hsplit := countP_add_countP_not
      (fun tq => (answerMapGet ansF tq.question_id).isSome) tqsF
    have hnone : tqsF.countP (fun tq => (answerMapGet ansF tq.question_id).isNone)
        = tqsF.countP (fun tq => !((answerMapGet ansF tq.question_id).isSome)) := by
      apply List.countP_congr
      intro tq _
      cases answerMapGet ansF tq.question_id <;> simp
    have hsome : tqsF.countP (fun tq => (answerMapGet ansF tq.question_id).isSome)
        = ansF.length := by
      have h1 : tqsF.countP (fun tq => (answerMapGet ansF tq.question_id).isSome)
          = tqsF.countP (fun tq =>
              decide (tq.question_id ∈ ansF.map (fun a => a.question_id))) := by
        apply List.countP_congr
        intro tq _
        constructor
        · intro h
          exact decide_eq_true ((answerMapGet_isSome ansF tq.question_id).mp h)
        · intro h
          exact (answerMapGet_isSome ansF tq.question_id).mpr (of_decide_eq_true h)
      have h2 := countP_mem_nodup (tqsF.map (fun tq => tq.question_id))
        (ansF.map (fun a => a.question_id)) hndT hndA hsub
      rw [List.countP_map] at h2
      rw [List.length_map] at h2
      rw [h1]
      exact h2
    omega
  · intro e he
    obtain ⟨⟨ch, s⟩, hmem, rfl⟩ := List.mem_map.mp he
    have hnd := chapterStats_keys_nodup db.questions ansF tqsF
    have hfind2 : (chapterStats db.questions ansF tqsF).find? (fun x => x.1 == ch)
        = some (ch, s) := find?_of_mem_nodup_keys _ hnd (ch, s) hmem
    have hlk : lookupStats (chapterStats db.questions ansF tqsF) ch = some s := by
      unfold lookupStats
      rw [hfind2]
      rfl
    rw [chapterStats_lookup] at hlk
    refine ⟨round2_final s.correct s.wrong, ?_⟩
    by_cases h0 : tqsF.countP (fun tq => chapterOf db.questions tq == ch) = 0
    · rw [if_pos h0] at hlk
      exact absurd hlk (by simp)
    · rw [if_neg h0] at hlk
      have hs : chCounts db.questions ansF tqsF ch = s := by
        injection hlk
      show ChapterStat.mk s.total s.correct s.wrong s.unanswered
          = chCounts db.questions ansF tqsF ch
      rw [hs]

/-- Witness for C1: 10 questions, 6 correct, 3 wrong, 1 unanswered gives
score 6, negative marks 3/4, final score 21/4. -/
theorem full_test_scoring_formula_witness :
    ∃ resp, (submit_test exC1DB 2 7 11).2 = Except.ok resp
      ∧ resp.correct_count = 6 ∧ resp.wrong_count = 3
      ∧ resp.unanswered_count = 1
      ∧ resp.score = 6 ∧ resp.negative_marks = 3 / 4
      ∧ resp.final_score = 21 / 4 := by
  obtain ⟨resp, hr, hc, hw, hsc, hneg, hfin, hun, hbr⟩ :=
    full_test_scoring_formula exC1DB 2 7 11 exC1Attempt
      (submit_test exC1DB 2 7 11).1 (submit_test exC1DB 2 7 11).2
      rfl rfl (by decide) (by decide) (by decide) rfl
  have hc6 : resp.correct_count = 6 := by rw [hc]; decide
  have hw3 : resp.wrong_count = 3 := by rw [hw]; decide
  have hu1 : resp.unanswered_count = 1 := by rw [hun]; decide
  have hs6 : resp.score = 6 := by
    rw [hsc, hc6]
    norm_num [MARKS_PER_CORRECT]
  have hn34 : resp.negative_marks = 3 / 4 := by
    rw [hneg, hw3]
    norm_num [NEGATIVE_MARK_PER_WRONG]
  have hf : resp.final_score = 21 / 4 := by
    rw [hfin, hs6, hn34]
    norm_num
  exact ⟨resp, hr, hc6, hw3, hu1, hs6, hn34, hf⟩

theorem processRows_spec :
    ∀ (rows : List CsvRow) (i : Nat),
      (processRows rows i).1
          = ((List.enumFrom i rows).filter
              (fun p => !(validateRow p.2).isEmpty)).map
              (fun p => (p.1, validateRow p.2))
      ∧ (processRows rows i).2
          = (rows.filter (fun r => (validateRow r).isEmpty)).map toValidRow := by
  intro rows
  induction rows with
  | nil => intro i; exact ⟨rfl, rfl⟩
  | cons r rest ih =>
    intro i
    have ihi := ih (i + 1)
    cases hv : validateRow r with
    | nil =>
      refine ⟨?_, ?_⟩
      · simp only [processRows, hv, List.enumFrom_cons, List.filter_cons,
          List.isEmpty_nil, Bool.not_true, Bool.false_eq_true, if_false]
        exact ihi.1
      · simp only [processRows, hv, List.filter_cons, List.isEmpty_nil, if_true,
          List.map_cons]
        rw [ihi.2]
    | cons e es =>
      refine ⟨?_, ?_⟩
      · simp only [processRows, hv, List.enumFrom_cons, List.filter_cons,
          List.isEmpty_cons, Bool.not_false, if_true, List.map_cons]
        rw [ihi.1]
      · simp only [processRows, hv, List.filter_cons, List.isEmpty_cons,
          Bool.false_eq_true, if_false]
        exact ihi.2

/-- Claim C9: when the CSV header row equals the required headers exactly
and there is at least one data row, the import succeeds, every defective
row (empty question text, correct option outside A-D, difficulty not an
integer 1-5, empty chapter, invalid category, or empty deck name) is
rejected individually and reported under its human-visible row number with
the header as row 1 and the first data row as row 2, and all remaining
rows are still normalized and kept. -/
theorem csv_row_validation (headers : List String) (rows : List CsvRow)
    (hh : headers = REQUIRED_HEADERS) (hr : rows ≠ []) :
    ∃ out, process_csv_upload headers rows = .ok out
      ∧ out.1 = ((List.enumFrom 2 rows).filter
            (fun p => !(validateRow p.2).isEmpty)).map
            (fun p => (p.1, validateRow p.2))
      ∧ out.2 = (rows.filter (fun r => (validateRow r).isEmpty)).map toValidRow
      ∧ (∀ j : Nat, ∀ hj : j < rows.length, ¬validateRow (rows.get ⟨j, hj⟩) = [] →
          (j + 2, validateRow (rows.get ⟨j, hj⟩)) ∈ out.1)
      ∧ ∀ r : CsvRow, validateRow r = [] ↔
          (¬pyStrip r.question_text = ""
           ∧ VALID_OPTIONS.contains (pyUpper (pyStrip r.correct_option)) = true
           ∧ (∃ d, pyInt (pyStrip r.difficulty) = some d ∧ 1 ≤ d ∧ d ≤ 5)
           ∧ ¬pyStrip r.chapter = ""
           ∧ VALID_CATEGORIES.contains (pyLower (pyStrip r.category)) = true
           ∧ ¬pyStrip r.deck_name = "") := by
  subst hh
  refine ⟨processRows rows 2, ?_, (processRows_spec rows 2).1,
    (processRows_spec rows 2).2, ?_, ?_⟩
  · unfold process_csv_upload
    have hne : ¬(rows.isEmpty = true) := by
      cases rows with
      | nil => exact absurd rfl hr
      | cons a l => simp
    rw [if_neg (fun hc => hc rfl), if_neg hne]
  · intro j hj hne2
    rw [(processRows_spec rows 2).1]
    apply List.mem_map.mpr
    refine ⟨(j + 2, rows.get ⟨j, hj⟩), ?_, rfl⟩
    apply List.mem_filter.mpr
    constructor
    · refine List.mem_iff_getElem.mpr ⟨j, ?_, ?_⟩
      · rw [List.enumFrom_length]
        exact hj
      · rw [List.getElem_enumFrom]
        rw [Nat.add_comm]
        simp [List.get_eq_getElem]
    · show (!(validateRow (rows.get ⟨j, hj⟩)).isEmpty) = true
      cases hv : validateRow (rows.get ⟨j, hj⟩) with
      | nil => exact absurd hv hne2
      | cons e es => rfl
  · intro r
    constructor
    · intro h
      unfold validateRow at h
      simp only [List.append_eq_nil] at h
      obtain ⟨⟨⟨⟨⟨h1, h2⟩, h3⟩, h4⟩, h5⟩, h6⟩ := h
      refine ⟨?_, ?_, ?_, ?_, ?_, ?_⟩
      · intro hc
        rw [if_pos hc] at h1
        exact List.cons_ne_nil _ _ h1
      · cases hc : VALID_OPTIONS.contains (pyUpper (pyStrip r.correct_option)) with
        | true => rfl
        | false =>
          rw [hc] at h2
          simp at h2
      · cases hd : pyInt (pyStrip r.difficulty) with
        | none =>
          rw [hd] at h3
          simp at h3
        | some d =>
          rw [hd] at h3
          dsimp only at h3
          by_cases hdr : d < 1 ∨ 5 < d
          · rw [if_pos hdr] at h3
            exact absurd h3 (List.cons_ne_nil _ _)
          · refine ⟨d, rfl, ?_, ?_⟩ <;> omega
      · intro hc
        rw [if_pos hc] at h4
        exact List.cons_ne_nil _ _ h4
      · cases hc : VALID_CATEGORIES.contains (pyLower (pyStrip r.category)) with
        | true => rfl
        | false =>
          rw [hc] at h5
          simp at h5
      · intro hc
        rw [if_pos hc] at h6
        exact List.cons_ne_nil _ _ h6
    · rintro ⟨h1, h2, ⟨d, hd, hd1, hd5⟩, h4, h5, h6⟩
      unfold validateRow
      rw [if_neg h1, if_pos h2, hd]
      dsimp only
      rw [if_neg (by omega : ¬(d < 1 ∨ 5 < d)), if_neg h4, if_pos h5, if_neg h6]
      rfl

/-- Witness for C9: of three data rows the defective second one is
reported as row 3 with both of its defects, and the two clean rows are
kept. -/
theorem csv_row_validation_witness :
    ∃ out, process_csv_upload REQUIRED_HEADERS [exCsvGood, exCsvBad, exCsvGood2]
        = Except.ok out
      ∧ out.1 = [(3, [RowError.emptyQuestionText, RowError.invalidCorrectOption])]
      ∧ out.2 = [toValidRow exCsvGood, toValidRow exCsvGood2] := by
  obtain ⟨out, hok, h1, h2, hidx, hiff⟩ :=
    csv_row_validation REQUIRED_HEADERS [exCsvGood, exCsvBad, exCsvGood2] rfl
      (by decide)
  refine ⟨out, hok, ?_, ?_⟩
  · rw [h1]
    decide
  · rw [h2]
    decide

end PharmaPulse
